import Mathlib

/-!
Verification development for the YQLValue core of yugabyte-db
(src/yb/common/yql_value.cc): the tagged database value representation,
its CQL binary wire codec (Serialize / Deserialize), the total-order
comparator (CompareTo) and the relational operators on YQLValuePB.

The codec helpers (CQLEncodeLength, CQLEncodeNum, CQLEncodeBytes,
CQLDecodeNum, CQLDecodeBytes, CQLStartCollection, CQLFinishCollection),
the decimal library, the date-time precision utilities and the
InetAddress/Uuid byte conversions live outside the given source file;
they are modelled from the specification (each such definition is marked
`Modelled from the spec:`).  Everything else is translated directly from
yql_value.cc.

Machine integers are modelled as Nat/Int with explicit reduction
modulo 2^w at the points where the C++ code converts or stores them.
A byte is a Nat (valid bytes are < 256); a buffer (faststring) or a
slice is a List Nat.
-/

namespace YQLSpec

/-! ### Big-endian byte primitives (NetworkByteOrder Store/Load) -/

/-- Modelled from the spec: big-endian storage of the low `w` bytes of a
natural number, as done by NetworkByteOrder::Store16/32/64 and Store8. -/
def beBytesW : Nat → Nat → List Nat
  | 0, _ => []
  | w + 1, n => beBytesW w (n / 256) ++ [n % 256]

/-- Modelled from the spec: big-endian load of a byte sequence into an
unsigned number (NetworkByteOrder::Load16/32/64, Load8). -/
def loadBE (l : List Nat) : Nat := l.foldl (fun a b => a * 256 + b) 0

/-- Storage of a (signed, two's-complement) integer on `w` bytes: the C++
cast to the unsigned type reduces the value modulo 2^(8w) = 256^w. -/
def intStore (w : Nat) (i : Int) : List Nat :=
  beBytesW w (i % ((256 ^ w : Nat) : Int)).toNat

/-- Reinterpretation of an unsigned `w`-byte value as a signed
two's-complement integer (the cast back to int8_t/int16_t/...). -/
def toSigned (w : Nat) (n : Nat) : Int :=
  if 2 * (n % 256 ^ w) < 256 ^ w then ((n % 256 ^ w : Nat) : Int)
  else ((n % 256 ^ w : Nat) : Int) - ((256 ^ w : Nat) : Int)

theorem beBytesW_length (w n : Nat) : (beBytesW w n).length = w := by
  induction w generalizing n with
  | zero => rfl
  | succ w ih => simp [beBytesW, ih]

theorem loadBE_append_single (l : List Nat) (b : Nat) :
    loadBE (l ++ [b]) = loadBE l * 256 + b := by
  simp [loadBE, List.foldl_append]

theorem loadBE_beBytesW (w n : Nat) : loadBE (beBytesW w n) = n % 256 ^ w := by
  induction w generalizing n with
  | zero => simp [beBytesW, loadBE, Nat.mod_one]
  | succ w ih =>
    rw [beBytesW, loadBE_append_single, ih]
    have h256 : (256 : Nat) ^ (w + 1) = 256 * 256 ^ w := by ring
    rw [h256, Nat.mod_mul]
    omega

theorem loadBE_intStore (w : Nat) (i : Int) :
    (loadBE (intStore w i) : Int) = i % ((256 ^ w : Nat) : Int) := by
  have hKpos : 0 < (256 : Nat) ^ w := by positivity
  rw [intStore, loadBE_beBytesW]
  generalize (256 ^ w : Nat) = K at *
  have hnn : 0 ≤ i % (K : Int) := Int.emod_nonneg i (by exact_mod_cast hKpos.ne.symm)
  have hlt : i % (K : Int) < (K : Int) := Int.emod_lt_of_pos i (by exact_mod_cast hKpos)
  have h1 : (i % (K : Int)).toNat < K := by omega
  rw [Nat.mod_eq_of_lt h1, Int.toNat_of_nonneg hnn]

/-- Round trip for signed fixed-width integers: storing `i` on `w` bytes and
reading it back as a signed value recovers `i` whenever `i` fits. -/
theorem toSigned_loadBE_intStore (w : Nat) (i : Int)
    (hlo : -((256 ^ w : Nat) : Int) ≤ 2 * i) (hhi : 2 * i < ((256 ^ w : Nat) : Int)) :
    toSigned w (loadBE (intStore w i)) = i := by
  have hKpos : 0 < (256 : Nat) ^ w := by positivity
  have hmod := loadBE_intStore w i
  unfold toSigned
  generalize (256 ^ w : Nat) = K at *
  have hnn : 0 ≤ i % (K : Int) := Int.emod_nonneg i (by exact_mod_cast hKpos.ne.symm)
  have hlt : i % (K : Int) < (K : Int) := Int.emod_lt_of_pos i (by exact_mod_cast hKpos)
  have hnK : loadBE (intStore w i) < K := by omega
  rw [Nat.mod_eq_of_lt hnK]
  have hcases : (0 ≤ i ∧ i % (K : Int) = i) ∨ (i < 0 ∧ i % (K : Int) = i + K) := by
    rcases le_or_lt 0 i with h | h
    · exact Or.inl ⟨h, Int.emod_eq_of_lt h (by omega)⟩
    · refine Or.inr ⟨h, ?_⟩
      have h1 : (i + (K : Int) * 1) % (K : Int) = i % (K : Int) :=
        Int.add_mul_emod_self_left i (K : Int) 1
      have h2 : (i + (K : Int)) % (K : Int) = i % (K : Int) := by
        simp only [mul_one] at h1
        exact h1
      rw [← h2, Int.emod_eq_of_lt (by omega) (by omega)]
  rcases hcases with ⟨h0, he⟩ | ⟨h0, he⟩
  · rw [he] at hmod
    have hc : 2 * loadBE (intStore w i) < K := by omega
    rw [if_pos hc]
    omega
  · rw [he] at hmod
    have hc : ¬ 2 * loadBE (intStore w i) < K := by omega
    rw [if_neg hc]
    omega

theorem intStore_length (w : Nat) (i : Int) : (intStore w i).length = w := by
  simp [intStore, beBytesW_length]

/-! ### The data model: DataType, YQLType, YQLValuePB -/

/-- The DataType enum of the type system (yb/common value.proto), as used by
the switches over `yql_type->main()` in yql_value.cc. -/
inductive DataType where
  | INT8 | INT16 | INT32 | INT64
  | STRING | BOOL | FLOAT | DOUBLE | BINARY | TIMESTAMP | DECIMAL
  | VARINT | INET | LIST | MAP | SET | UUID | TIMEUUID
  | TUPLE | TYPEARGS
  | UINT8 | UINT16 | UINT32 | UINT64
  | NULL_VALUE_TYPE | UNKNOWN_DATA
  deriving DecidableEq, Repr

/-- The external type descriptor (YQLType): a main DataType plus child
descriptors for parametrized types (one for SET/LIST, two - key then
value - for MAP).  Consulted, never mutated, by the codec. -/
inductive YQLType where
  | mk (main : DataType) (params : List YQLType)

def YQLType.main : YQLType → DataType
  | .mk m _ => m

def YQLType.params : YQLType → List YQLType
  | .mk _ ps => ps

/-- A tagged database value (the YQLValuePB protobuf oneof): at most one
payload is active; `nullValue` is the VALUE_NOT_SET state.  Scalars carry
Int/Nat/byte-list payloads; float/double carry the raw IEEE-754 bit
pattern (which is what the codec stores and loads); decimal carries the
canonical comparable byte encoding; timestamp carries the internal
microsecond count; inetaddress/uuid/timeuuid carry their canonical byte
form; map carries the two parallel key/value sequences. -/
inductive YQLValuePB where
  | nullValue
  | int8Value (v : Int)
  | int16Value (v : Int)
  | int32Value (v : Int)
  | int64Value (v : Int)
  | floatValue (bits : Nat)
  | doubleValue (bits : Nat)
  | decimalValue (bytes : List Nat)
  | stringValue (bytes : List Nat)
  | boolValue (b : Bool)
  | timestampValue (micros : Int)
  | binaryValue (bytes : List Nat)
  | inetaddressValue (bytes : List Nat)
  | uuidValue (bytes : List Nat)
  | timeuuidValue (bytes : List Nat)
  | mapValue (keys values : List YQLValuePB)
  | setValue (elems : List YQLValuePB)
  | listValue (elems : List YQLValuePB)
  | varintValue (bytes : List Nat)

namespace YQLValuePB

/-- The protobuf oneof discriminator (value_case). -/
def valueCase : YQLValuePB → Nat
  | .nullValue => 0
  | .int8Value _ => 1
  | .int16Value _ => 2
  | .int32Value _ => 3
  | .int64Value _ => 4
  | .floatValue _ => 5
  | .doubleValue _ => 6
  | .decimalValue _ => 7
  | .stringValue _ => 8
  | .boolValue _ => 9
  | .timestampValue _ => 10
  | .binaryValue _ => 11
  | .inetaddressValue _ => 12
  | .uuidValue _ => 13
  | .timeuuidValue _ => 14
  | .mapValue _ _ => 15
  | .setValue _ => 16
  | .listValue _ => 17
  | .varintValue _ => 18

/-- IsNull: the oneof has no active field (VALUE_NOT_SET). -/
def isNull : YQLValuePB → Bool
  | .nullValue => true
  | _ => false

/-- Protobuf accessors: reading a oneof field that is not active yields the
field's default value (0 / empty / false). -/
def int8_value : YQLValuePB → Int
  | .int8Value v => v
  | _ => 0

def int16_value : YQLValuePB → Int
  | .int16Value v => v
  | _ => 0

def int32_value : YQLValuePB → Int
  | .int32Value v => v
  | _ => 0

def int64_value : YQLValuePB → Int
  | .int64Value v => v
  | _ => 0

def float_value : YQLValuePB → Nat
  | .floatValue b => b
  | _ => 0

def double_value : YQLValuePB → Nat
  | .doubleValue b => b
  | _ => 0

def decimal_value : YQLValuePB → List Nat
  | .decimalValue b => b
  | _ => []

def string_value : YQLValuePB → List Nat
  | .stringValue b => b
  | _ => []

def bool_value : YQLValuePB → Bool
  | .boolValue b => b
  | _ => false

def timestamp_value : YQLValuePB → Int
  | .timestampValue v => v
  | _ => 0

def binary_value : YQLValuePB → List Nat
  | .binaryValue b => b
  | _ => []

def inetaddress_value : YQLValuePB → List Nat
  | .inetaddressValue b => b
  | _ => []

def uuid_value : YQLValuePB → List Nat
  | .uuidValue b => b
  | _ => []

def timeuuid_value : YQLValuePB → List Nat
  | .timeuuidValue b => b
  | _ => []

def map_keys : YQLValuePB → List YQLValuePB
  | .mapValue ks _ => ks
  | _ => []

def map_values : YQLValuePB → List YQLValuePB
  | .mapValue _ vs => vs
  | _ => []

def set_elems : YQLValuePB → List YQLValuePB
  | .setValue es => es
  | _ => []

def list_elems : YQLValuePB → List YQLValuePB
  | .listValue es => es
  | _ => []

end YQLValuePB

/-- BothNotNull (yql_value.h): both operands have an active field. -/
def bothNotNull (a b : YQLValuePB) : Bool := !a.isNull && !b.isNull

/-- Modelled from the spec: Comparable (yql_value.h) - `compare` is defined
only when the two operands share the same active tag. -/
def comparable (a b : YQLValuePB) : Bool := a.valueCase == b.valueCase

/-! ### Modelled external collaborators

The decimal library (util::Decimal), the date-time precision utilities
(DateTime::AdjustPrecision and the precision constants) and the
InetAddress/Uuid byte conversions are outside the given source file.
They are modelled from the specification below; for the decimal library
only the properties the spec relies on (the two encodings exist and
conversion between them is faithful, with an out-of-range report on the
wire side) are modelled, with a simplified sign-magnitude stand-in for
the two's-complement unscaled integer. -/

/-- Minimal big-endian base-256 digits, with fuel (the value itself always
suffices as fuel since the value shrinks at every division by 256). -/
def natToBEF : Nat → Nat → List Nat
  | 0, _ => []
  | fuel + 1, n => if n = 0 then [] else natToBEF fuel (n / 256) ++ [n % 256]

/-- Minimal big-endian base-256 digits of a natural number (no leading
zero bytes; 0 encodes as the empty list). -/
def natToBE (n : Nat) : List Nat := natToBEF n n

theorem loadBE_natToBEF (fuel n : Nat) (h : n ≤ fuel) :
    loadBE (natToBEF fuel n) = n := by
  induction fuel generalizing n with
  | zero =>
    have : n = 0 := by omega
    subst this
    simp [natToBEF, loadBE]
  | succ fuel ih =>
    by_cases h0 : n = 0
    · subst h0; simp [natToBEF, loadBE]
    · rw [natToBEF, if_neg h0, loadBE_append_single, ih (n / 256) (by omega)]
      omega

theorem loadBE_natToBE (n : Nat) : loadBE (natToBE n) = n :=
  loadBE_natToBEF n n le_rfl

/-- Modelled from the spec: an arbitrary-precision decimal, as a scale and
an unscaled integer (the serialized big-decimal view of util::Decimal). -/
structure DecimalM where
  scale : Int
  unscaled : Int
  deriving DecidableEq, Repr

/-- Modelled from the spec: util::DecimalFromComparable - parse the
canonical comparable byte encoding into a decimal.  The comparable form
here is a sign byte and 8 bytes for the scale, then a sign byte and
minimal big-endian magnitude bytes for the unscaled integer. -/
def decimalFromComparable (b : List Nat) : DecimalM :=
  let ssign := b.headD 0
  let smag := loadBE ((b.drop 1).take 8)
  let usign := (b.drop 9).headD 0
  let umag := loadBE (b.drop 10)
  ⟨(if ssign = 1 then -1 else 1) * smag, (if usign = 1 then -1 else 1) * umag⟩

/-- Modelled from the spec: util::Decimal::EncodeToComparable - the
canonical comparable byte encoding of a decimal. -/
def encodeToComparable (d : DecimalM) : List Nat :=
  (if d.scale < 0 then 1 else 0) :: beBytesW 8 d.scale.natAbs
    ++ (if d.unscaled < 0 then 1 else 0) :: natToBE d.unscaled.natAbs

/-- Modelled from the spec: the serialized big-decimal wire form is a
4-byte scale followed by the unscaled integer on the remaining bytes;
a scale outside the int32 range is out of representable range. -/
def decimalOutOfRange (d : DecimalM) : Bool :=
  decide (d.scale < -(2 ^ 31) ∨ 2 ^ 31 ≤ d.scale)

/-- Modelled from the spec: util::Decimal::EncodeToSerializedBigDecimal -
produce the wire bytes together with the out-of-range report (the value
is still encoded, with the scale reduced mod 2^32, when out of range). -/
def encodeToSerializedBigDecimal (d : DecimalM) : List Nat × Bool :=
  (intStore 4 d.scale
     ++ (if d.unscaled < 0 then 1 else 0) :: natToBE d.unscaled.natAbs,
   decimalOutOfRange d)

/-- Decode errors versus fatal contract breaches: a recoverable bad-input
Status versus a LOG(FATAL)/CHECK abort. -/
inductive DErr where
  | decodeError
  | fatalError
  deriving DecidableEq, Repr

/-- Modelled from the spec: util::Decimal::DecodeFromSerializedBigDecimal -
parse the wire form back; rejects a payload too short to hold the scale
and the unscaled part. -/
def decodeFromSerializedBigDecimal (b : List Nat) : Except DErr DecimalM :=
  if b.length < 5 then .error .decodeError
  else
    let scale := toSigned 4 (loadBE (b.take 4))
    let usign := b.getD 4 0
    let umag := loadBE (b.drop 5)
    .ok ⟨scale, (if usign = 1 then -1 else 1) * umag⟩

/-- Modelled from the spec: DateTime::internal_precision - the internal
timestamp precision (microseconds, precision exponent 6). -/
def internalPrecision : Nat := 6

/-- Modelled from the spec: DateTime::CqlDateTimeInputFormat's input
precision - the CQL wire precision (milliseconds, precision exponent 3). -/
def cqlInputPrecision : Nat := 3

/-- Modelled from the spec: DateTime::AdjustPrecision - scale a timestamp
between two decimal precisions; scaling down divides (C++ integer
division truncates toward zero, hence Int.tdiv). -/
def adjustPrecision (v : Int) (fromPrec toPrec : Nat) : Int :=
  if fromPrec ≤ toPrec then v * (10 : Int) ^ (toPrec - fromPrec)
  else Int.tdiv v ((10 : Int) ^ (fromPrec - toPrec))

/-- Modelled from the spec: InetAddress::FromBytes accepts the 4-byte v4
or the 16-byte v6 canonical form. -/
def inetFromBytesOk (b : List Nat) : Bool := b.length == 4 || b.length == 16

/-- Modelled from the spec: Uuid::FromBytes requires exactly 16 bytes
(RFC4122 layout). -/
def uuidFromBytesOk (b : List Nat) : Bool := b.length == 16

/-- Modelled from the spec: Uuid::IsTimeUuid - the RFC4122 version nibble
(high nibble of byte 6) must be 1 (time-based). -/
def isTimeUuid (b : List Nat) : Bool := b.getD 6 0 / 16 == 1

/-! ### Modelled CQL codec helpers (yb/common wire protocol utilities) -/

/-- Modelled from the spec: CQLEncodeLength - append the 4-byte big-endian
signed length field. -/
def cqlEncodeLength (i : Int) (buf : List Nat) : List Nat := buf ++ intStore 4 i

/-- Modelled from the spec: CQLEncodeNum - length field holding the value's
byte width, then the big-endian fixed-width two's-complement value. -/
def cqlEncodeNum (w : Nat) (i : Int) (buf : List Nat) : List Nat :=
  buf ++ intStore 4 (w : Int) ++ intStore w i

/-- Modelled from the spec: CQLEncodeFloat - length field then the raw
IEEE-754 bit pattern, big-endian. -/
def cqlEncodeFloat (w : Nat) (bits : Nat) (buf : List Nat) : List Nat :=
  buf ++ intStore 4 (w : Int) ++ beBytesW w bits

/-- Modelled from the spec: CQLEncodeBytes - length field holding the byte
count (cast to int32), then the raw bytes. -/
def cqlEncodeBytes (s : List Nat) (buf : List Nat) : List Nat :=
  buf ++ intStore 4 (s.length : Int) ++ s

/-- Modelled from the spec: CQLStartCollection - reserve the 4-byte
outer-length field at the current sink position (the caller remembers
that position). -/
def cqlStartCollection (buf : List Nat) : List Nat := buf ++ intStore 4 0

/-- Overwrite `bytes.length` bytes of `buf` at offset `pos` (the sink's
patch-at-offset primitive). -/
def patchAt (pos : Nat) (bytes buf : List Nat) : List Nat :=
  buf.take pos ++ bytes ++ buf.drop (pos + bytes.length)

/-- Modelled from the spec: CQLFinishCollection - overwrite the reserved
outer-length field at `startPos` with
(current sink position) - (reserved position) - 4, as an int32. -/
def cqlFinishCollection (startPos : Nat) (buf : List Nat) : List Nat :=
  patchAt startPos (intStore 4 ((buf.length : Int) - (startPos : Int) - 4)) buf

/-- Modelled from the spec: CQLDecodeNum - reads a fixed-width number whose
framed length `len` must equal the numeric type's width, rejecting a
short source. -/
def cqlDecodeNum (len : Int) (w : Nat) (data : List Nat) :
    Except DErr (Nat × List Nat) :=
  if len ≠ (w : Int) then .error .decodeError
  else if data.length < w then .error .decodeError
  else .ok (loadBE (data.take w), data.drop w)

/-- Modelled from the spec: CQLDecodeBytes - take `len` payload bytes,
rejecting a negative length and a request past the source bound. -/
def cqlDecodeBytes (len : Int) (data : List Nat) :
    Except DErr (List Nat × List Nat) :=
  if len < 0 then .error .decodeError
  else if (data.length : Int) < len then .error .decodeError
  else .ok (data.take len.toNat, data.drop len.toNat)

/-! ### Computable structural sizes (used as recursion fuel) -/

mutual

def typeSize : YQLType → Nat
  | .mk _ ps => typeSizeList ps + 1

def typeSizeList : List YQLType → Nat
  | [] => 0
  | t :: ts => typeSize t + typeSizeList ts + 1

end

mutual

def valSize : YQLValuePB → Nat
  | .mapValue ks vs => valSizeList ks + valSizeList vs + 1
  | .setValue es => valSizeList es + 1
  | .listValue es => valSizeList es + 1
  | _ => 1

def valSizeList : List YQLValuePB → Nat
  | [] => 0
  | v :: vs => valSize v + valSizeList vs + 1

end

/-! ### YQLValue::Serialize (yql_value.cc, lines 94-216)

Translated from the source.  The result is an Option: `none` stands for
the LOG(FATAL)/CHECK aborts (unsupported kind in the switch, a
non-time-based time-uuid, an out-of-bounds values(i) access in the MAP
loop, a collection descriptor missing its child descriptors).  A fuel
argument makes the recursion into collection elements structural; the
public wrapper below supplies `valSize v`, which always suffices. -/

def serElems (ser : YQLValuePB → List Nat → Option (List Nat)) :
    List YQLValuePB → List Nat → Option (List Nat)
  | [], buf => some buf
  | e :: es, buf =>
    match ser e buf with
    | none => none
    | some b1 => serElems ser es b1

def serMapEntries (serK serV : YQLValuePB → List Nat → Option (List Nat)) :
    List YQLValuePB → List YQLValuePB → List Nat → Option (List Nat)
  | [], _, buf => some buf
  | _ :: _, [], _ => none
  | k :: ks, w :: ws, buf =>
    match serK k buf with
    | none => none
    | some b1 =>
      match serV w b1 with
      | none => none
      | some b2 => serMapEntries serK serV ks ws b2

def serializeF : Nat → YQLType → YQLValuePB → List Nat → Option (List Nat)
  | 0, _, _, _ => none
  | fuel + 1, t, v, buf =>
    if v.isNull then some (cqlEncodeLength (-1) buf)
    else
      match t, v with
      | .mk .INT8 _, _ => some (cqlEncodeNum 1 v.int8_value buf)
      | .mk .INT16 _, _ => some (cqlEncodeNum 2 v.int16_value buf)
      | .mk .INT32 _, _ => some (cqlEncodeNum 4 v.int32_value buf)
      | .mk .INT64 _, _ => some (cqlEncodeNum 8 v.int64_value buf)
      | .mk .FLOAT _, _ => some (cqlEncodeFloat 4 v.float_value buf)
      | .mk .DOUBLE _, _ => some (cqlEncodeFloat 8 v.double_value buf)
      | .mk .DECIMAL _, _ =>
          some (cqlEncodeBytes
            (encodeToSerializedBigDecimal (decimalFromComparable v.decimal_value)).1 buf)
      | .mk .STRING _, _ => some (cqlEncodeBytes v.string_value buf)
      | .mk .BOOL _, _ => some (cqlEncodeNum 1 (if v.bool_value then 1 else 0) buf)
      | .mk .BINARY _, _ => some (cqlEncodeBytes v.binary_value buf)
      | .mk .TIMESTAMP _, _ =>
          some (cqlEncodeNum 8
            (adjustPrecision v.timestamp_value internalPrecision cqlInputPrecision) buf)
      | .mk .INET _, _ => some (cqlEncodeBytes v.inetaddress_value buf)
      | .mk .UUID _, _ => some (cqlEncodeBytes v.uuid_value buf)
      | .mk .TIMEUUID _, _ =>
          if isTimeUuid v.timeuuid_value then some (cqlEncodeBytes v.timeuuid_value buf)
          else none
      | .mk .MAP (keysType :: valuesType :: _), _ =>
          match serMapEntries (serializeF fuel keysType) (serializeF fuel valuesType)
              v.map_keys v.map_values
              (cqlEncodeLength (v.map_keys.length : Int) (cqlStartCollection buf)) with
          | some b3 => some (cqlFinishCollection buf.length b3)
          | none => none
      | .mk .SET (elemsType :: _), _ =>
          match serElems (serializeF fuel elemsType) v.set_elems
              (cqlEncodeLength (v.set_elems.length : Int) (cqlStartCollection buf)) with
          | some b3 => some (cqlFinishCollection buf.length b3)
          | none => none
      | .mk .LIST (elemsType :: _), _ =>
          match serElems (serializeF fuel elemsType) v.list_elems
              (cqlEncodeLength (v.list_elems.length : Int) (cqlStartCollection buf)) with
          | some b3 => some (cqlFinishCollection buf.length b3)
          | none => none
      | _, _ => none

/-- YQLValue::Serialize - the public entry point; `valSize v` fuel always
suffices since each recursive call descends into a collection element. -/
def serialize (t : YQLType) (v : YQLValuePB) (buf : List Nat) : Option (List Nat) :=
  serializeF (valSize v) t v buf

/-! ### YQLValue::Deserialize (yql_value.cc, lines 218-356)

Translated from the source.  Recursion is driven by the type descriptor;
a fuel argument makes the recursion structural (the public wrapper below
supplies `sizeOf t`, which always suffices).  `.error .fatalError`
stands for the LOG(FATAL) on unsupported kinds (and for the
caller-defect case of a collection descriptor missing its child
descriptors, plus fuel exhaustion, which is unreachable). -/

def decodeElems (dec : List Nat → Except DErr (YQLValuePB × List Nat)) :
    Nat → List Nat → Except DErr (List YQLValuePB × List Nat)
  | 0, data => .ok ([], data)
  | n + 1, data =>
    match dec data with
    | .error e => .error e
    | .ok (e, d1) =>
      match decodeElems dec n d1 with
      | .error e2 => .error e2
      | .ok (es, d2) => .ok (e :: es, d2)

def decodeMapEntries
    (decK decV : List Nat → Except DErr (YQLValuePB × List Nat)) :
    Nat → List Nat → Except DErr (List YQLValuePB × List YQLValuePB × List Nat)
  | 0, data => .ok ([], [], data)
  | n + 1, data =>
    match decK data with
    | .error e => .error e
    | .ok (k, d1) =>
      match decV d1 with
      | .error e2 => .error e2
      | .ok (w, d2) =>
        match decodeMapEntries decK decV n d2 with
        | .error e3 => .error e3
        | .ok (ks, ws, d3) => .ok (k :: ks, w :: ws, d3)

def deserializeF : Nat → YQLType → List Nat → Except DErr (YQLValuePB × List Nat)
  | 0, _, _ => .error .fatalError
  | fuel + 1, t, data =>
    match cqlDecodeNum 4 4 data with
    | .error e => .error e
    | .ok (n4, d1) =>
      if toSigned 4 n4 = -1 then .ok (.nullValue, d1)
      else
        match t with
        | .mk .INT8 _ =>
          match cqlDecodeNum (toSigned 4 n4) 1 d1 with
          | .error e => .error e
          | .ok (n, d2) => .ok (.int8Value (toSigned 1 n), d2)
        | .mk .INT16 _ =>
          match cqlDecodeNum (toSigned 4 n4) 2 d1 with
          | .error e => .error e
          | .ok (n, d2) => .ok (.int16Value (toSigned 2 n), d2)
        | .mk .INT32 _ =>
          match cqlDecodeNum (toSigned 4 n4) 4 d1 with
          | .error e => .error e
          | .ok (n, d2) => .ok (.int32Value (toSigned 4 n), d2)
        | .mk .INT64 _ =>
          match cqlDecodeNum (toSigned 4 n4) 8 d1 with
          | .error e => .error e
          | .ok (n, d2) => .ok (.int64Value (toSigned 8 n), d2)
        | .mk .FLOAT _ =>
          match cqlDecodeNum (toSigned 4 n4) 4 d1 with
          | .error e => .error e
          | .ok (n, d2) => .ok (.floatValue n, d2)
        | .mk .DOUBLE _ =>
          match cqlDecodeNum (toSigned 4 n4) 8 d1 with
          | .error e => .error e
          | .ok (n, d2) => .ok (.doubleValue n, d2)
        | .mk .DECIMAL _ =>
          match cqlDecodeBytes (toSigned 4 n4) d1 with
          | .error e => .error e
          | .ok (bs, d2) =>
            match decodeFromSerializedBigDecimal bs with
            | .error e2 => .error e2
            | .ok d => .ok (.decimalValue (encodeToComparable d), d2)
        | .mk .STRING _ =>
          match cqlDecodeBytes (toSigned 4 n4) d1 with
          | .error e => .error e
          | .ok (bs, d2) => .ok (.stringValue bs, d2)
        | .mk .BOOL _ =>
          match cqlDecodeNum (toSigned 4 n4) 1 d1 with
          | .error e => .error e
          | .ok (n, d2) => .ok (.boolValue (n ≠ 0), d2)
        | .mk .BINARY _ =>
          match cqlDecodeBytes (toSigned 4 n4) d1 with
          | .error e => .error e
          | .ok (bs, d2) => .ok (.binaryValue bs, d2)
        | .mk .TIMESTAMP _ =>
          match cqlDecodeNum (toSigned 4 n4) 8 d1 with
          | .error e => .error e
          | .ok (n, d2) =>
            .ok (.timestampValue
              (adjustPrecision (toSigned 8 n) cqlInputPrecision internalPrecision), d2)
        | .mk .INET _ =>
          match cqlDecodeBytes (toSigned 4 n4) d1 with
          | .error e => .error e
          | .ok (bs, d2) =>
            if inetFromBytesOk bs then .ok (.inetaddressValue bs, d2)
            else .error .decodeError
        | .mk .UUID _ =>
          match cqlDecodeBytes (toSigned 4 n4) d1 with
          | .error e => .error e
          | .ok (bs, d2) =>
            if uuidFromBytesOk bs then .ok (.uuidValue bs, d2)
            else .error .decodeError
        | .mk .TIMEUUID _ =>
          match cqlDecodeBytes (toSigned 4 n4) d1 with
          | .error e => .error e
          | .ok (bs, d2) =>
            if uuidFromBytesOk bs then
              if isTimeUuid bs then .ok (.timeuuidValue bs, d2)
              else .error .decodeError
            else .error .decodeError
        | .mk .MAP (keysType :: valuesType :: _) =>
          match cqlDecodeNum 4 4 d1 with
          | .error e => .error e
          | .ok (nc, d2) =>
            match decodeMapEntries (deserializeF fuel keysType)
                (deserializeF fuel valuesType) (toSigned 4 nc).toNat d2 with
            | .error e2 => .error e2
            | .ok (ks, ws, d3) => .ok (.mapValue ks ws, d3)
        | .mk .SET (elemsType :: _) =>
          match cqlDecodeNum 4 4 d1 with
          | .error e => .error e
          | .ok (nc, d2) =>
            match decodeElems (deserializeF fuel elemsType) (toSigned 4 nc).toNat d2 with
            | .error e2 => .error e2
            | .ok (es, d3) => .ok (.setValue es, d3)
        | .mk .LIST (elemsType :: _) =>
          match cqlDecodeNum 4 4 d1 with
          | .error e => .error e
          | .ok (nc, d2) =>
            match decodeElems (deserializeF fuel elemsType) (toSigned 4 nc).toNat d2 with
            | .error e2 => .error e2
            | .ok (es, d3) => .ok (.listValue es, d3)
        | _ => .error .fatalError

/-- YQLValue::Deserialize - the public entry point; `typeSize t` fuel always
suffices since each recursive call descends into a child descriptor. -/
def deserialize (t : YQLType) (data : List Nat) :
    Except DErr (YQLValuePB × List Nat) :=
  deserializeF (typeSize t) t data

/-! ### Validity: being a value of a descriptor's kind

A C++ YQLValuePB of a given kind carries an in-range scalar by
construction (an int8_t cannot exceed 127); the Lean payloads are
unbounded, so validity re-imposes those representation invariants, plus
the practically-assumed size bounds (byte strings and element counts fit
an int32, a collection's encoding fits an int32) and the decimal/uuid
payload well-formedness the external libraries guarantee. -/

/-- A decimal payload is a well-formed canonical comparable encoding of an
in-wire-range decimal of reasonable length. -/
def validDecimalBytes (bs : List Nat) : Bool :=
  let d := decimalFromComparable bs
  decide (encodeToComparable d = bs) && !(decimalOutOfRange d)
    && decide (bs.length < 2 ^ 31)

/-- The encoded size bound for a collection value (the patched outer
length must be a non-negative int32). -/
def encSizeOk (fuel : Nat) (t : YQLType) (v : YQLValuePB) : Bool :=
  match serializeF fuel t v [] with
  | some bs => decide (bs.length < 2 ^ 31)
  | none => false

def validF : Nat → YQLType → YQLValuePB → Bool
  | 0, _, _ => false
  | fuel + 1, t, v =>
    match t, v with
    | .mk .INT8 _, .int8Value n => decide (-(2 ^ 7) ≤ n ∧ n < 2 ^ 7)
    | .mk .INT16 _, .int16Value n => decide (-(2 ^ 15) ≤ n ∧ n < 2 ^ 15)
    | .mk .INT32 _, .int32Value n => decide (-(2 ^ 31) ≤ n ∧ n < 2 ^ 31)
    | .mk .INT64 _, .int64Value n => decide (-(2 ^ 63) ≤ n ∧ n < 2 ^ 63)
    | .mk .FLOAT _, .floatValue b => decide (b < 2 ^ 32)
    | .mk .DOUBLE _, .doubleValue b => decide (b < 2 ^ 64)
    | .mk .DECIMAL _, .decimalValue bs => validDecimalBytes bs
    | .mk .STRING _, .stringValue s => decide (s.length < 2 ^ 31)
    | .mk .BOOL _, .boolValue _ => true
    | .mk .BINARY _, .binaryValue s => decide (s.length < 2 ^ 31)
    | .mk .TIMESTAMP _, .timestampValue m =>
        decide (-(2 ^ 63) ≤ m ∧ m < 2 ^ 63) && decide (m % 1000 = 0)
    | .mk .INET _, .inetaddressValue bs => inetFromBytesOk bs
    | .mk .UUID _, .uuidValue bs => uuidFromBytesOk bs
    | .mk .TIMEUUID _, .timeuuidValue bs => uuidFromBytesOk bs && isTimeUuid bs
    | .mk .MAP (kt :: vt :: _), .mapValue ks ws =>
        decide (ks.length = ws.length) && decide (ks.length < 2 ^ 31)
          && ks.all (validF fuel kt) && ws.all (validF fuel vt)
          && encSizeOk (fuel + 1) t v
    | .mk .SET (et :: _), .setValue es =>
        decide (es.length < 2 ^ 31) && es.all (validF fuel et)
          && encSizeOk (fuel + 1) t v
    | .mk .LIST (et :: _), .listValue es =>
        decide (es.length < 2 ^ 31) && es.all (validF fuel et)
          && encSizeOk (fuel + 1) t v
    | _, _ => false

/-- `v` is a (representable, round-trippable) value of descriptor `t`. -/
def valid (t : YQLType) (v : YQLValuePB) : Bool := validF (valSize v) t v

/-! ### The comparator: GenericCompare, CompareTo and the operators
(yql_value.cc, lines 39-44, 460-515) -/

/-- GenericCompare (yql_value.cc, lines 39-44), at the integral kinds:
-1 / 0 / 1 by the order of the payloads. -/
def genericCompare (a b : Int) : Int :=
  if a < b then -1 else if b < a then 1 else 0

/-- Three-way byte-lexicographic comparison: std::string::compare for the
decimal/string/binary payloads, and (modelled from the spec) the
canonical-byte total orders that GenericCompare delegates to for the
InetAddress and Uuid class types. -/
def lexCmp : List Nat → List Nat → Int
  | [], [] => 0
  | [], _ :: _ => -1
  | _ :: _, [] => 1
  | a :: as, b :: bs => if a < b then -1 else if b < a then 1 else lexCmp as bs

/-- The numeric reading of an IEEE-754 single-precision bit pattern:
none for NaN; infinities are mapped to sentinels beyond every finite
single-precision magnitude, so the induced order is the IEEE order. -/
def f32val (b : Nat) : Option ℚ :=
  let s : Nat := b / 2 ^ 31 % 2
  let e : Nat := b / 2 ^ 23 % 2 ^ 8
  let f : Nat := b % 2 ^ 23
  let sgn : Int := if s = 1 then -1 else 1
  if e = 255 then
    if f = 0 then some (mkRat (sgn * 2 ^ 200) 1)
    else none
  else
    some (if e = 0 then mkRat (sgn * f) (2 ^ 149)
      else mkRat (sgn * ((2 ^ 23 + f) * 2 ^ (e - 1))) (2 ^ 149))

/-- The numeric reading of an IEEE-754 double-precision bit pattern. -/
def f64val (b : Nat) : Option ℚ :=
  let s : Nat := b / 2 ^ 63 % 2
  let e : Nat := b / 2 ^ 52 % 2 ^ 11
  let f : Nat := b % 2 ^ 52
  let sgn : Int := if s = 1 then -1 else 1
  if e = 2047 then
    if f = 0 then some (mkRat (sgn * 2 ^ 2000) 1)
    else none
  else
    some (if e = 0 then mkRat (sgn * f) (2 ^ 1074)
      else mkRat (sgn * ((2 ^ 52 + f) * 2 ^ (e - 1))) (2 ^ 1074))

def isNan32 (b : Nat) : Bool := (b / 2 ^ 23 % 2 ^ 8 == 255) && (b % 2 ^ 23 != 0)

def isNan64 (b : Nat) : Bool := (b / 2 ^ 52 % 2 ^ 11 == 2047) && (b % 2 ^ 52 != 0)

/-- The IEEE `<` on float payloads: false whenever either side is NaN. -/
def fltLt (x y : Option ℚ) : Bool :=
  match x, y with
  | some a, some b => decide (a < b)
  | _, _ => false

/-- GenericCompare at the float/double kinds, built on the IEEE `<`
(so NaN compares "equal" to everything, as the C++ template does). -/
def fcmp (x y : Option ℚ) : Int :=
  if fltLt x y then -1 else if fltLt y x then 1 else 0

/-- YQLValue::CompareTo(const YQLValuePB&, const YQLValuePB&)
(yql_value.cc, lines 460-501).  `none` stands for the CHECK/LOG(FATAL)
aborts: mismatched or null operands, the non-orderable bool and
collection kinds, varint, and the value-not-set case. -/
def compareToPB (lhs rhs : YQLValuePB) : Option Int :=
  if comparable lhs rhs && bothNotNull lhs rhs then
    match lhs with
    | .int8Value a => some (genericCompare a rhs.int8_value)
    | .int16Value a => some (genericCompare a rhs.int16_value)
    | .int32Value a => some (genericCompare a rhs.int32_value)
    | .int64Value a => some (genericCompare a rhs.int64_value)
    | .floatValue a => some (fcmp (f32val a) (f32val rhs.float_value))
    | .doubleValue a => some (fcmp (f64val a) (f64val rhs.double_value))
    | .decimalValue a => some (lexCmp a rhs.decimal_value)
    | .stringValue a => some (lexCmp a rhs.string_value)
    | .boolValue _ => none
    | .timestampValue a => some (genericCompare a rhs.timestamp_value)
    | .binaryValue a => some (lexCmp a rhs.binary_value)
    | .inetaddressValue a => some (lexCmp a rhs.inetaddress_value)
    | .uuidValue a => some (lexCmp a rhs.uuid_value)
    | .timeuuidValue a => some (lexCmp a rhs.timeuuid_value)
    | .mapValue _ _ => none
    | .setValue _ => none
    | .listValue _ => none
    | .varintValue _ => none
    | .nullValue => none
  else none

/-! ### The YQLValuePB relational operators (yql_value.cc, lines 505-515)

Each operator is `BothNotNull(lhs, rhs) && CompareTo(lhs, rhs) op 0`;
the short-circuiting `&&` means a pair with a null side yields false
without ever reaching CompareTo, while a non-null pair inherits
CompareTo's fatal outcomes (`none`). -/

def yqlLt (l r : YQLValuePB) : Option Bool :=
  if bothNotNull l r then (compareToPB l r).map (fun n => decide (n < 0))
  else some false

def yqlGt (l r : YQLValuePB) : Option Bool :=
  if bothNotNull l r then (compareToPB l r).map (fun n => decide (n > 0))
  else some false

def yqlLe (l r : YQLValuePB) : Option Bool :=
  if bothNotNull l r then (compareToPB l r).map (fun n => decide (n ≤ 0))
  else some false

def yqlGe (l r : YQLValuePB) : Option Bool :=
  if bothNotNull l r then (compareToPB l r).map (fun n => decide (n ≥ 0))
  else some false

def yqlEq (l r : YQLValuePB) : Option Bool :=
  if bothNotNull l r then (compareToPB l r).map (fun n => decide (n = 0))
  else some false

def yqlNe (l r : YQLValuePB) : Option Bool :=
  if bothNotNull l r then (compareToPB l r).map (fun n => decide (n ≠ 0))
  else some false

/-! ### General lemmas about the codec -/

theorem typeSize_eq (m : DataType) (ps : List YQLType) :
    typeSize (.mk m ps) = typeSizeList ps + 1 := rfl

theorem cqlDecodeNum_read4 (data : List Nat) (h : 4 ≤ data.length) :
    cqlDecodeNum 4 4 data = .ok (loadBE (data.take 4), data.drop 4) := by
  unfold cqlDecodeNum
  rw [if_neg (by norm_num), if_neg (by omega)]

theorem cqlDecodeNum_exact (w : Nat) (b4 rest : List Nat) (h : b4.length = w) :
    cqlDecodeNum (w : Int) w (b4 ++ rest) = .ok (loadBE b4, rest) := by
  unfold cqlDecodeNum
  rw [if_neg (by simp), if_neg (by simp only [List.length_append]; omega),
    List.take_left' h, List.drop_left' h]

theorem intStore4_neg1 : intStore 4 (-1) = [255, 255, 255, 255] := rfl

theorem toSigned4_neg1 : toSigned 4 (loadBE [255, 255, 255, 255]) = -1 := rfl

/-- Reading the leading length field of `[255,255,255,255] ++ rest` yields
the null marker, and Deserialize returns null before consulting the
descriptor's kind. -/
theorem deserializeF_succ_null (fuel : Nat) (t : YQLType) (rest : List Nat) :
    deserializeF (fuel + 1) t ([255, 255, 255, 255] ++ rest) =
      .ok (.nullValue, rest) := by
  simp only [deserializeF]
  rw [cqlDecodeNum_read4 _ (by simp), List.take_left' (by norm_num),
    List.drop_left' (by norm_num)]
  simp only [Bind.bind, Except.bind, toSigned4_neg1, if_pos]

/-! ### C4: the null round trip -/

/-- C4: Serializing a null value writes exactly the 4-byte big-endian
length -1 (bytes FF FF FF FF) and no payload bytes, and deserializing a
leading length of -1 yields a null value for every type descriptor,
consuming no payload bytes (the trailing bytes are left in the source). -/
theorem c4_null_round_trip :
    (∀ (t : YQLType) (buf : List Nat),
      serialize t .nullValue buf = some (buf ++ [255, 255, 255, 255])) ∧
    (∀ (t : YQLType) (rest : List Nat),
      deserialize t ([255, 255, 255, 255] ++ rest) = .ok (.nullValue, rest)) := by
  constructor
  · intro t buf
    show some (cqlEncodeLength (-1) buf) = _
    rw [cqlEncodeLength, intStore4_neg1]
  · intro t rest
    obtain ⟨m, ps⟩ := t
    show deserializeF (typeSizeList ps + 1) _ _ = _
    exact deserializeF_succ_null _ _ _

/-! ### C10: a negative inner element count decodes to an empty collection -/

/-- C10: For every map, set, or list type descriptor and every well-framed
input whose 4-byte inner element count is negative, Deserialize returns
success with an empty collection: the element-reading loop never
executes (the loop bound casts the negative count to zero iterations),
no error is raised, and no bytes beyond the count field are consumed. -/
theorem c10_negative_count_empty_collection
    (kt vt et : YQLType) (ps : List YQLType) (lenB cntB rest : List Nat)
    (hlen : lenB.length = 4) (hcnt : cntB.length = 4)
    (hnotnull : toSigned 4 (loadBE lenB) ≠ -1)
    (hneg : toSigned 4 (loadBE cntB) < 0) :
    deserialize (.mk .MAP (kt :: vt :: ps)) (lenB ++ cntB ++ rest) =
        .ok (.mapValue [] [], rest) ∧
      deserialize (.mk .SET (et :: ps)) (lenB ++ cntB ++ rest) =
        .ok (.setValue [], rest) ∧
      deserialize (.mk .LIST (et :: ps)) (lenB ++ cntB ++ rest) =
        .ok (.listValue [], rest) := by
  have hτ : (toSigned 4 (loadBE cntB)).toNat = 0 := by omega
  have hdata : lenB ++ cntB ++ rest = lenB ++ (cntB ++ rest) := by
    simp [List.append_assoc]
  have h1 : cqlDecodeNum 4 4 (lenB ++ (cntB ++ rest)) =
      .ok (loadBE lenB, cntB ++ rest) := by
    rw [cqlDecodeNum_read4 _ (by simp [hlen]), List.take_left' hlen,
      List.drop_left' hlen]
  have h2 : cqlDecodeNum 4 4 (cntB ++ rest) = .ok (loadBE cntB, rest) := by
    rw [cqlDecodeNum_read4 _ (by simp [hcnt]), List.take_left' hcnt,
      List.drop_left' hcnt]
  refine ⟨?_, ?_, ?_⟩ <;>
  · show deserializeF (typeSizeList _ + 1) _ _ = _
    simp only [deserializeF, hdata, h1]
    rw [if_neg hnotnull]
    simp only [h2, hτ, decodeMapEntries, decodeElems]

/-! ### C6: decoding a map yields equal-length key/value sequences -/

theorem decodeMapEntries_length
    (decK decV : List Nat → Except DErr (YQLValuePB × List Nat)) :
    ∀ (n : Nat) (data : List Nat) (ks ws : List YQLValuePB) (rest : List Nat),
      decodeMapEntries decK decV n data = .ok (ks, ws, rest) →
      ks.length = ws.length := by
  intro n
  induction n with
  | zero =>
    intro data ks ws rest h
    simp only [decodeMapEntries] at h
    obtain ⟨h1, h2, _⟩ : [] = ks ∧ [] = ws ∧ data = rest := by
      simpa using h
    rw [← h1, ← h2]
  | succ n ih =>
    intro data ks ws rest h
    simp only [decodeMapEntries] at h
    split at h
    · exact absurd h (by simp)
    · split at h
      · exact absurd h (by simp)
      · split at h
        · exact absurd h (by simp)
        · rename_i hrec
          simp only [Except.ok.injEq, Prod.mk.injEq] at h
          obtain ⟨hk, hw, -⟩ := h
          rw [← hk, ← hw]
          simpa using ih _ _ _ _ hrec

/-- C6: Whenever Deserialize is invoked with a map type descriptor and
returns, a map result always carries equal-length key and value
sequences (the element loop appends exactly one key and one value per
iteration); the only other possible result value is null. -/
theorem c6_map_equal_lengths
    (kt vt : YQLType) (ps : List YQLType) (data : List Nat)
    (v : YQLValuePB) (rest : List Nat)
    (h : deserialize (.mk .MAP (kt :: vt :: ps)) data = .ok (v, rest)) :
    ∀ ks ws, v = .mapValue ks ws → ks.length = ws.length := by
  intro ks ws hv
  subst hv
  replace h : deserializeF (typeSizeList (kt :: vt :: ps) + 1) _ data = _ := h
  simp only [deserializeF] at h
  split at h
  · exact absurd h (by simp)
  · split at h
    · exact absurd h (by simp)
    · split at h
      · exact absurd h (by simp)
      · split at h
        · exact absurd h (by simp)
        · rename_i ks2 ws2 d3 hrec
          obtain ⟨h1, h2⟩ : YQLValuePB.mapValue ks2 ws2 = .mapValue ks ws ∧ d3 = rest := by
            simpa using h
          obtain ⟨hk, hw⟩ : ks2 = ks ∧ ws2 = ws := by
            simpa using h1
          rw [← hk, ← hw]
          exact decodeMapEntries_length _ _ _ _ _ _ _ hrec

/-! ### C9: the non-orderable kinds reject comparison -/

/-- The kinds CompareTo declares non-orderable: bool and the collections. -/
def nonOrderable : YQLValuePB → Bool
  | .boolValue _ => true
  | .mapValue _ _ => true
  | .setValue _ => true
  | .listValue _ => true
  | _ => false

/-- C9: For every pair of non-null values both of kind bool, map, set, or
list, any comparison attempt is a fatal contract breach (LOG(FATAL),
modelled as `none`): neither CompareTo nor any relational operator on
two such non-null operands ever returns a less/equal/greater (or
true/false) result. -/
theorem c9_non_orderable_fatal (a b : YQLValuePB)
    (hk : nonOrderable a = true)
    (hsame : a.valueCase = b.valueCase)
    (hnn : bothNotNull a b = true) :
    compareToPB a b = none ∧ yqlLt a b = none ∧ yqlGt a b = none ∧
      yqlLe a b = none ∧ yqlGe a b = none ∧ yqlEq a b = none ∧
      yqlNe a b = none := by
  have hc : compareToPB a b = none := by
    cases a <;> simp_all [compareToPB, nonOrderable, comparable]
  exact ⟨hc, by simp [yqlLt, hnn, hc], by simp [yqlGt, hnn, hc],
    by simp [yqlLe, hnn, hc], by simp [yqlGe, hnn, hc],
    by simp [yqlEq, hnn, hc], by simp [yqlNe, hnn, hc]⟩

/-- Witness for C9 at bool(true) versus bool(true). -/
theorem c9_non_orderable_fatal_witness :
    compareToPB (.boolValue true) (.boolValue true) = none ∧
      yqlLt (.boolValue true) (.boolValue true) = none ∧
      yqlGt (.boolValue true) (.boolValue true) = none ∧
      yqlLe (.boolValue true) (.boolValue true) = none ∧
      yqlGe (.boolValue true) (.boolValue true) = none ∧
      yqlEq (.boolValue true) (.boolValue true) = none ∧
      yqlNe (.boolValue true) (.boolValue true) = none :=
  c9_non_orderable_fatal (.boolValue true) (.boolValue true) rfl rfl rfl

/-! ### C2: the relational operators on null operands

The source operators are `BothNotNull(lhs, rhs) && CompareTo(lhs, rhs) op 0`
for every operator, `!=` included: a pair with a null side therefore
yields false for every operator - `!=` does NOT report such a pair as
not-equal, contrary to the claim's reading. -/

/-- C2 counterexample: the claim says a pair with a null side is
not-equal, so `!=` on (null, int32 1) would have to return true; the
code returns false (BothNotNull short-circuits every operator,
`!=` included). -/
theorem c2_counterexample :
    YQLValuePB.isNull .nullValue = true ∧
      yqlNe .nullValue (.int32Value 1) = some false := ⟨rfl, rfl⟩

/-- C2 (amended): every ordering operator returns false whenever either
operand is null; `==` returns true exactly when both operands are
non-null and compare equal; and `!=` also returns false on a pair with a
null side - it returns true exactly when both operands are non-null and
compare unequal. -/
theorem c2_null_comparisons (a b : YQLValuePB) :
    ((a.isNull || b.isNull) = true →
      yqlLt a b = some false ∧ yqlGt a b = some false ∧
      yqlLe a b = some false ∧ yqlGe a b = some false ∧
      yqlEq a b = some false ∧ yqlNe a b = some false) ∧
    (yqlEq a b = some true ↔
      bothNotNull a b = true ∧ compareToPB a b = some 0) ∧
    (yqlNe a b = some true ↔
      bothNotNull a b = true ∧ ∃ n, compareToPB a b = some n ∧ n ≠ 0) := by
  refine ⟨?_, ?_, ?_⟩
  · intro hnull
    have hbn : bothNotNull a b = false := by
      rcases Bool.or_eq_true_iff.mp hnull with h | h <;>
        simp [bothNotNull, h]
    simp [yqlLt, yqlGt, yqlLe, yqlGe, yqlEq, yqlNe, hbn]
  · cases hbn : bothNotNull a b
    · simp [yqlEq, hbn]
    · cases hc : compareToPB a b with
      | none => simp [yqlEq, hbn, hc]
      | some n => simp [yqlEq, hbn, hc]
  · cases hbn : bothNotNull a b
    · simp [yqlNe, hbn]
    · cases hc : compareToPB a b with
      | none => simp [yqlNe, hbn, hc]
      | some n => simp [yqlNe, hbn, hc]

/-- Witness for the amended C2 at (null, int32 1): all six operators
return false. -/
theorem c2_null_comparisons_witness :
    yqlLt .nullValue (.int32Value 1) = some false ∧
      yqlGt .nullValue (.int32Value 1) = some false ∧
      yqlLe .nullValue (.int32Value 1) = some false ∧
      yqlGe .nullValue (.int32Value 1) = some false ∧
      yqlEq .nullValue (.int32Value 1) = some false ∧
      yqlNe .nullValue (.int32Value 1) = some false :=
  (c2_null_comparisons .nullValue (.int32Value 1)).1 rfl

/-! ### C8: decimal out-of-range on encode is logged, not fatal -/

/-- C8: When Serialize is invoked on a non-null decimal value and the
conversion to the serialized big-decimal wire form reports the value out
of representable range, the call still writes the encoded bytes and
completes successfully (no error and no abort: the out-of-range flag is
only logged). -/
theorem c8_decimal_out_of_range_still_encodes
    (bs : List Nat) (ps : List YQLType) (buf : List Nat)
    (_hoor : (encodeToSerializedBigDecimal (decimalFromComparable bs)).2 = true) :
    serialize (.mk .DECIMAL ps) (.decimalValue bs) buf =
      some (cqlEncodeBytes
        (encodeToSerializedBigDecimal (decimalFromComparable bs)).1 buf) := rfl

/-- Witness for C8 at a decimal whose scale 2^31 is out of int32 range. -/
theorem c8_decimal_out_of_range_still_encodes_witness :
    (encodeToSerializedBigDecimal
        (decimalFromComparable (encodeToComparable ⟨2 ^ 31, 5⟩))).2 = true ∧
      serialize (.mk .DECIMAL []) (.decimalValue (encodeToComparable ⟨2 ^ 31, 5⟩)) [] =
        some (cqlEncodeBytes
          (encodeToSerializedBigDecimal
            (decimalFromComparable (encodeToComparable ⟨2 ^ 31, 5⟩))).1 []) :=
  ⟨rfl, c8_decimal_out_of_range_still_encodes _ [] [] rfl⟩

/-! ### C7: the collection length-patch mechanism -/

/-- The backpatch workhorse: finishing a collection whose reserved 4-byte
outer-length field sits at offset `buf.length` (with `tail` having been
appended after it) overwrites exactly that field with
(current position) - (reserved position) - 4 = tail.length. -/
theorem cqlFinishCollection_append (buf tail : List Nat) :
    cqlFinishCollection buf.length (buf ++ intStore 4 0 ++ tail) =
      buf ++ intStore 4 (tail.length : Int) ++ tail := by
  have hX : (((buf ++ intStore 4 0 ++ tail).length : Nat) : Int)
      - (buf.length : Int) - 4 = (tail.length : Int) := by
    simp only [List.length_append, intStore_length]
    push_cast
    ring
  unfold cqlFinishCollection patchAt
  rw [hX, intStore_length]
  rw [show buf ++ intStore 4 0 ++ tail = buf ++ (intStore 4 0 ++ tail) from by simp,
    List.take_left]
  rw [show buf ++ (intStore 4 0 ++ tail) = (buf ++ intStore 4 0) ++ tail from by simp,
    List.drop_left' (by simp [intStore_length])]

/-- Shape of Serialize on a list value, at any element fuel: the reserved
outer-length field at the start position is patched to 4 (for the count
field) plus the element bytes. -/
theorem serializeF_list_shape (fuel : Nat) (et : YQLType) (ps : List YQLType)
    (es : List YQLValuePB) (buf elemsBytes : List Nat)
    (h : serElems (serializeF fuel et) es
        (buf ++ intStore 4 0 ++ intStore 4 (es.length : Int)) =
      some (buf ++ intStore 4 0 ++ intStore 4 (es.length : Int) ++ elemsBytes)) :
    serializeF (fuel + 1) (.mk .LIST (et :: ps)) (.listValue es) buf =
      some (buf ++ intStore 4 (4 + (elemsBytes.length : Int)) ++
        intStore 4 (es.length : Int) ++ elemsBytes) := by
  simp only [serializeF, YQLValuePB.isNull, YQLValuePB.list_elems,
    cqlStartCollection, cqlEncodeLength, Bool.false_eq_true, if_false]
  rw [h]
  rw [show buf ++ intStore 4 0 ++ intStore 4 (es.length : Int) ++ elemsBytes
      = buf ++ intStore 4 0 ++ (intStore 4 (es.length : Int) ++ elemsBytes) from by simp]
  show some (cqlFinishCollection buf.length
    (buf ++ intStore 4 0 ++ (intStore 4 (es.length : Int) ++ elemsBytes))) = _
  rw [cqlFinishCollection_append]
  have hlen : (((intStore 4 (es.length : Int) ++ elemsBytes).length : Nat) : Int)
      = 4 + (elemsBytes.length : Int) := by
    simp [intStore_length]
  rw [hlen]
  simp [List.append_assoc]

/-- Shape of Serialize on a set value, at any element fuel. -/
theorem serializeF_set_shape (fuel : Nat) (et : YQLType) (ps : List YQLType)
    (es : List YQLValuePB) (buf elemsBytes : List Nat)
    (h : serElems (serializeF fuel et) es
        (buf ++ intStore 4 0 ++ intStore 4 (es.length : Int)) =
      some (buf ++ intStore 4 0 ++ intStore 4 (es.length : Int) ++ elemsBytes)) :
    serializeF (fuel + 1) (.mk .SET (et :: ps)) (.setValue es) buf =
      some (buf ++ intStore 4 (4 + (elemsBytes.length : Int)) ++
        intStore 4 (es.length : Int) ++ elemsBytes) := by
  simp only [serializeF, YQLValuePB.isNull, YQLValuePB.set_elems,
    cqlStartCollection, cqlEncodeLength, Bool.false_eq_true, if_false]
  rw [h]
  rw [show buf ++ intStore 4 0 ++ intStore 4 (es.length : Int) ++ elemsBytes
      = buf ++ intStore 4 0 ++ (intStore 4 (es.length : Int) ++ elemsBytes) from by simp]
  show some (cqlFinishCollection buf.length
    (buf ++ intStore 4 0 ++ (intStore 4 (es.length : Int) ++ elemsBytes))) = _
  rw [cqlFinishCollection_append]
  have hlen : (((intStore 4 (es.length : Int) ++ elemsBytes).length : Nat) : Int)
      = 4 + (elemsBytes.length : Int) := by
    simp [intStore_length]
  rw [hlen]
  simp [List.append_assoc]

/-- Shape of Serialize on a map value, at any element fuel: the count
written is the key count. -/
theorem serializeF_map_shape (fuel : Nat) (kt vt : YQLType) (ps : List YQLType)
    (ks ws : List YQLValuePB) (buf elemsBytes : List Nat)
    (h : serMapEntries (serializeF fuel kt) (serializeF fuel vt) ks ws
        (buf ++ intStore 4 0 ++ intStore 4 (ks.length : Int)) =
      some (buf ++ intStore 4 0 ++ intStore 4 (ks.length : Int) ++ elemsBytes)) :
    serializeF (fuel + 1) (.mk .MAP (kt :: vt :: ps)) (.mapValue ks ws) buf =
      some (buf ++ intStore 4 (4 + (elemsBytes.length : Int)) ++
        intStore 4 (ks.length : Int) ++ elemsBytes) := by
  simp only [serializeF, YQLValuePB.isNull, YQLValuePB.map_keys,
    YQLValuePB.map_values, cqlStartCollection, cqlEncodeLength,
    Bool.false_eq_true, if_false]
  rw [h]
  rw [show buf ++ intStore 4 0 ++ intStore 4 (ks.length : Int) ++ elemsBytes
      = buf ++ intStore 4 0 ++ (intStore 4 (ks.length : Int) ++ elemsBytes) from by simp]
  show some (cqlFinishCollection buf.length
    (buf ++ intStore 4 0 ++ (intStore 4 (ks.length : Int) ++ elemsBytes))) = _
  rw [cqlFinishCollection_append]
  have hlen : (((intStore 4 (ks.length : Int) ++ elemsBytes).length : Nat) : Int)
      = 4 + (elemsBytes.length : Int) := by
    simp [intStore_length]
  rw [hlen]
  simp [List.append_assoc]

/-- Shape of Serialize on a list value (public wrapper fuel). -/
theorem serialize_list_shape (et : YQLType) (ps : List YQLType)
    (es : List YQLValuePB) (buf elemsBytes : List Nat)
    (h : serElems (serializeF (valSizeList es) et) es
        (buf ++ intStore 4 0 ++ intStore 4 (es.length : Int)) =
      some (buf ++ intStore 4 0 ++ intStore 4 (es.length : Int) ++ elemsBytes)) :
    serialize (.mk .LIST (et :: ps)) (.listValue es) buf =
      some (buf ++ intStore 4 (4 + (elemsBytes.length : Int)) ++
        intStore 4 (es.length : Int) ++ elemsBytes) :=
  serializeF_list_shape (valSizeList es) et ps es buf elemsBytes h

/-- Shape of Serialize on a set value (public wrapper fuel). -/
theorem serialize_set_shape (et : YQLType) (ps : List YQLType)
    (es : List YQLValuePB) (buf elemsBytes : List Nat)
    (h : serElems (serializeF (valSizeList es) et) es
        (buf ++ intStore 4 0 ++ intStore 4 (es.length : Int)) =
      some (buf ++ intStore 4 0 ++ intStore 4 (es.length : Int) ++ elemsBytes)) :
    serialize (.mk .SET (et :: ps)) (.setValue es) buf =
      some (buf ++ intStore 4 (4 + (elemsBytes.length : Int)) ++
        intStore 4 (es.length : Int) ++ elemsBytes) :=
  serializeF_set_shape (valSizeList es) et ps es buf elemsBytes h

/-- Shape of Serialize on a map value (public wrapper fuel). -/
theorem serialize_map_shape (kt vt : YQLType) (ps : List YQLType)
    (ks ws : List YQLValuePB) (buf elemsBytes : List Nat)
    (h : serMapEntries (serializeF (valSizeList ks + valSizeList ws) kt)
        (serializeF (valSizeList ks + valSizeList ws) vt) ks ws
        (buf ++ intStore 4 0 ++ intStore 4 (ks.length : Int)) =
      some (buf ++ intStore 4 0 ++ intStore 4 (ks.length : Int) ++ elemsBytes)) :
    serialize (.mk .MAP (kt :: vt :: ps)) (.mapValue ks ws) buf =
      some (buf ++ intStore 4 (4 + (elemsBytes.length : Int)) ++
        intStore 4 (ks.length : Int) ++ elemsBytes) :=
  serializeF_map_shape (valSizeList ks + valSizeList ws) kt vt ps ks ws buf
    elemsBytes h

/-- C7: For every map, set, or list value, Serialize reserves the 4-byte
outer-length field at the current sink position before writing the
element count or any elements, and afterwards overwrites that field with
(current sink position) - (reserved position) - 4: whenever the elements
serialize to `elemsBytes` past the reserved field and the count field,
the final sink is the original buffer, then the patched outer length
(4 + |elemsBytes|, the bytes written after the reserved field), then the
count, then the element bytes.  In particular serializing an empty list
of int32 into an empty sink produces exactly
00 00 00 04 00 00 00 00. -/
theorem c7_collection_length_patch :
    (∀ (kt vt : YQLType) (ps : List YQLType) (ks ws : List YQLValuePB)
        (buf elemsBytes : List Nat),
      serMapEntries (serializeF (valSizeList ks + valSizeList ws) kt)
          (serializeF (valSizeList ks + valSizeList ws) vt) ks ws
          (buf ++ intStore 4 0 ++ intStore 4 (ks.length : Int)) =
        some (buf ++ intStore 4 0 ++ intStore 4 (ks.length : Int) ++ elemsBytes) →
      serialize (.mk .MAP (kt :: vt :: ps)) (.mapValue ks ws) buf =
        some (buf ++ intStore 4 (4 + (elemsBytes.length : Int)) ++
          intStore 4 (ks.length : Int) ++ elemsBytes)) ∧
    (∀ (et : YQLType) (ps : List YQLType) (es : List YQLValuePB)
        (buf elemsBytes : List Nat),
      serElems (serializeF (valSizeList es) et) es
          (buf ++ intStore 4 0 ++ intStore 4 (es.length : Int)) =
        some (buf ++ intStore 4 0 ++ intStore 4 (es.length : Int) ++ elemsBytes) →
      serialize (.mk .SET (et :: ps)) (.setValue es) buf =
        some (buf ++ intStore 4 (4 + (elemsBytes.length : Int)) ++
          intStore 4 (es.length : Int) ++ elemsBytes)) ∧
    (∀ (et : YQLType) (ps : List YQLType) (es : List YQLValuePB)
        (buf elemsBytes : List Nat),
      serElems (serializeF (valSizeList es) et) es
          (buf ++ intStore 4 0 ++ intStore 4 (es.length : Int)) =
        some (buf ++ intStore 4 0 ++ intStore 4 (es.length : Int) ++ elemsBytes) →
      serialize (.mk .LIST (et :: ps)) (.listValue es) buf =
        some (buf ++ intStore 4 (4 + (elemsBytes.length : Int)) ++
          intStore 4 (es.length : Int) ++ elemsBytes)) ∧
    serialize (.mk .LIST [.mk .INT32 []]) (.listValue []) [] =
      some [0, 0, 0, 4, 0, 0, 0, 0] :=
  ⟨fun kt vt ps ks ws buf eb h => serialize_map_shape kt vt ps ks ws buf eb h,
   fun et ps es buf eb h => serialize_set_shape et ps es buf eb h,
   fun et ps es buf eb h => serialize_list_shape et ps es buf eb h,
   rfl⟩

/-- Witness for C7: the empty int32 list from an empty sink, through the
general list equation. -/
theorem c7_collection_length_patch_witness :
    serElems (serializeF (valSizeList []) (.mk .INT32 [])) []
        (([] : List Nat) ++ intStore 4 0 ++ intStore 4 (([] : List YQLValuePB).length : Int)) =
      some (([] : List Nat) ++ intStore 4 0 ++
        intStore 4 (([] : List YQLValuePB).length : Int) ++ []) ∧
    serialize (.mk .LIST [.mk .INT32 []]) (.listValue []) [] =
      some (([] : List Nat) ++ intStore 4 (4 + (([] : List Nat).length : Int)) ++
        intStore 4 (([] : List YQLValuePB).length : Int) ++ []) := by
  refine ⟨by simp [serElems], ?_⟩
  exact (c7_collection_length_patch.2.2.1) (.mk .INT32 []) [] [] [] []
    (by simp [serElems])

/-! ### C5: rejection of bad lengths

The claim as stated fails: for the collection kinds, Deserialize never
looks at the outer length again after the -1 null check (the inner
element count is authoritative), so a negative outer length other
than -1, or an outer length larger than the remaining source, is
silently ignored there.  For the scalar kinds the rejection holds. -/

theorem cqlDecodeNum_err (len : Int) (w : Nat) (d1 : List Nat) (hw : 0 < w)
    (h : len < 0 ∨ (d1.length : Int) < len) :
    cqlDecodeNum len w d1 = .error .decodeError := by
  unfold cqlDecodeNum
  by_cases hlw : len = (w : Int)
  · subst hlw
    rcases h with h | h
    · exact absurd h (by omega)
    · rw [if_neg (by simp), if_pos (by exact_mod_cast h)]
  · rw [if_pos hlw]

theorem cqlDecodeBytes_err (len : Int) (d1 : List Nat)
    (h : len < 0 ∨ (d1.length : Int) < len) :
    cqlDecodeBytes len d1 = .error .decodeError := by
  unfold cqlDecodeBytes
  rcases h with h | h
  · rw [if_pos h]
  · by_cases h0 : len < 0
    · rw [if_pos h0]
    · rw [if_neg h0, if_pos h]

/-- The supported non-collection kinds of the Deserialize switch. -/
def scalarKind : DataType → Bool
  | .INT8 | .INT16 | .INT32 | .INT64 | .FLOAT | .DOUBLE | .DECIMAL | .STRING
  | .BOOL | .BINARY | .TIMESTAMP | .INET | .UUID | .TIMEUUID => true
  | _ => false

/-- C5 counterexample: with a list descriptor, an input whose leading
4-byte length is -2 (negative and not -1) is not rejected - Deserialize
returns success (an empty list), because the collection path ignores the
outer length.  The claim, which demands an error for every such input,
is therefore false as stated. -/
theorem c5_counterexample :
    toSigned 4 (loadBE (([255, 255, 255, 254, 0, 0, 0, 0] : List Nat).take 4)) = -2 ∧
      deserialize (.mk .LIST [.mk .INT32 []]) [255, 255, 255, 254, 0, 0, 0, 0] =
        .ok (.listValue [], []) := ⟨rfl, rfl⟩

/-- C5 (amended): for every supported scalar (non-collection) type
descriptor, an input whose leading 4-byte big-endian length is negative
and not -1, or whose framed payload length exceeds the bytes remaining
in the source, makes Deserialize return a decode error (an error
result, not a crash, and no read past the source bound). -/
theorem c5_scalar_bad_length_rejected
    (d : DataType) (ps : List YQLType) (data : List Nat)
    (hd : scalarKind d = true) (hlen : 4 ≤ data.length)
    (h : (toSigned 4 (loadBE (data.take 4)) < 0 ∧
            toSigned 4 (loadBE (data.take 4)) ≠ -1) ∨
         (0 ≤ toSigned 4 (loadBE (data.take 4)) ∧
            (data.length : Int) - 4 < toSigned 4 (loadBE (data.take 4)))) :
    deserialize (.mk d ps) data = .error .decodeError := by
  have hne : toSigned 4 (loadBE (data.take 4)) ≠ -1 := by
    rcases h with ⟨_, h2⟩ | ⟨h1, _⟩
    · exact h2
    · omega
  have hdrop : ((data.drop 4).length : Int) = (data.length : Int) - 4 := by
    simp only [List.length_drop]
    omega
  have herr : toSigned 4 (loadBE (data.take 4)) < 0 ∨
      ((data.drop 4).length : Int) < toSigned 4 (loadBE (data.take 4)) := by
    rcases h with ⟨h1, _⟩ | ⟨_, h2⟩
    · exact Or.inl h1
    · right
      omega
  have e1 := cqlDecodeNum_err (toSigned 4 (loadBE (data.take 4))) 1 (data.drop 4)
    (by norm_num) herr
  have e2 := cqlDecodeNum_err (toSigned 4 (loadBE (data.take 4))) 2 (data.drop 4)
    (by norm_num) herr
  have e4 := cqlDecodeNum_err (toSigned 4 (loadBE (data.take 4))) 4 (data.drop 4)
    (by norm_num) herr
  have e8 := cqlDecodeNum_err (toSigned 4 (loadBE (data.take 4))) 8 (data.drop 4)
    (by norm_num) herr
  have eb := cqlDecodeBytes_err (toSigned 4 (loadBE (data.take 4))) (data.drop 4) herr
  cases d <;>
    first
      | (show deserializeF (typeSizeList ps + 1) _ _ = _
         simp only [deserializeF, cqlDecodeNum_read4 data hlen]
         rw [if_neg hne]
         simp only [e1, e2, e4, e8, eb]
         done)
      | exact absurd hd (by simp [scalarKind])

/-- Witness for the amended C5: an int32 descriptor rejects both a
leading length of -2 and a leading length of 8 with only one payload
byte remaining. -/
theorem c5_scalar_bad_length_rejected_witness :
    deserialize (.mk .INT32 []) [255, 255, 255, 254] = .error .decodeError ∧
      deserialize (.mk .INT32 []) [0, 0, 0, 8, 1] = .error .decodeError := by
  constructor
  · refine c5_scalar_bad_length_rejected .INT32 [] _ rfl (by norm_num) ?_
    rw [show toSigned 4 (loadBE (([255, 255, 255, 254] : List Nat).take 4)) = -2
      from rfl]
    norm_num
  · refine c5_scalar_bad_length_rejected .INT32 [] _ rfl (by norm_num) ?_
    rw [show toSigned 4 (loadBE (([0, 0, 0, 8, 1] : List Nat).take 4)) = 8
      from rfl]
    norm_num

/-! ### C3: order-theoretic properties of CompareTo

Every orderable kind's comparison is normalized to a generic three-way
lexicographic comparison of a rational-list order key; antisymmetry and
transitivity follow generically.  The float kinds obey this only away
from NaN (the counterexample below shows the claim fails on NaN). -/

section Lex3

variable {α : Type} [LinearOrder α]

/-- Generic three-way lexicographic comparison over a linear order (the
shape shared by std::string::compare and GenericCompare). -/
def lex3 : List α → List α → Int
  | [], [] => 0
  | [], _ :: _ => -1
  | _ :: _, [] => 1
  | a :: as, b :: bs => if a < b then -1 else if b < a then 1 else lex3 as bs

theorem lex3_swap : ∀ x y : List α, lex3 y x = -(lex3 x y)
  | [], [] => by simp [lex3]
  | [], _ :: _ => by simp [lex3]
  | _ :: _, [] => by simp [lex3]
  | a :: as, b :: bs => by
    by_cases h1 : a < b
    · have h2 : ¬ b < a := lt_asymm h1
      simp [lex3, h1, h2]
    · by_cases h2 : b < a
      · simp [lex3, h1, h2]
      · simp [lex3, h1, h2, lex3_swap as bs]

theorem lex3_eq_iff : ∀ x y : List α, lex3 x y = 0 ↔ x = y
  | [], [] => by simp [lex3]
  | [], _ :: _ => by simp [lex3]
  | _ :: _, [] => by simp [lex3]
  | a :: as, b :: bs => by
    by_cases h1 : a < b
    · simp [lex3, h1, h1.ne]
    · by_cases h2 : b < a
      · simp [lex3, h1, h2, h2.ne']
      · have hab : a = b := le_antisymm (not_lt.mp h2) (not_lt.mp h1)
        simp [lex3, h1, h2, hab, lex3_eq_iff as bs]

theorem lex3_cons_neg (u v : α) (us vs : List α)
    (h : lex3 (u :: us) (v :: vs) < 0) :
    u < v ∨ (u = v ∧ lex3 us vs < 0) := by
  by_cases h1 : u < v
  · exact Or.inl h1
  · by_cases h2 : v < u
    · simp [lex3, h1, h2] at h
    · refine Or.inr ⟨le_antisymm (not_lt.mp h2) (not_lt.mp h1), ?_⟩
      simpa [lex3, h1, h2] using h

theorem lex3_trans_neg : ∀ x y z : List α,
    lex3 x y < 0 → lex3 y z < 0 → lex3 x z < 0
  | [], [], _ => by intro h1 _; simp [lex3] at h1
  | [], _ :: _, [] => by intro _ h2; simp [lex3] at h2
  | [], _ :: _, _ :: _ => by intro _ _; simp [lex3]
  | _ :: _, [], _ => by intro h1 _; simp [lex3] at h1
  | _ :: _, _ :: _, [] => by intro _ h2; simp [lex3] at h2
  | a :: as, b :: bs, c :: cs => by
    intro h1 h2
    rcases lex3_cons_neg a b as bs h1 with hab | ⟨hab, hr1⟩ <;>
      rcases lex3_cons_neg b c bs cs h2 with hbc | ⟨hbc, hr2⟩
    · have hac : a < c := lt_trans hab hbc
      simp [lex3, hac]
    · have hac : a < c := hbc ▸ hab
      simp [lex3, hac]
    · have hac : a < c := hab ▸ hbc
      simp [lex3, hac]
    · subst hab
      subst hbc
      simp [lex3, lt_irrefl, lex3_trans_neg as bs cs hr1 hr2]

end Lex3

theorem lexCmp_eq_lex3 : ∀ s t : List Nat, lexCmp s t = lex3 s t
  | [], [] => rfl
  | [], _ :: _ => rfl
  | _ :: _, [] => rfl
  | a :: as, b :: bs => by simp [lexCmp, lex3, lexCmp_eq_lex3 as bs]

theorem genericCompare_eq_lex3 (m n : Int) :
    genericCompare m n = lex3 [(m : ℚ)] [(n : ℚ)] := by
  by_cases h1 : m < n
  · have h1q : (m : ℚ) < n := by exact_mod_cast h1
    simp [genericCompare, lex3, h1, h1q]
  · by_cases h2 : n < m
    · have h2q : (n : ℚ) < m := by exact_mod_cast h2
      have h1q : ¬ (m : ℚ) < n := by exact_mod_cast h1
      simp [genericCompare, lex3, h1, h2, h1q, h2q]
    · have h1q : ¬ (m : ℚ) < n := by exact_mod_cast h1
      have h2q : ¬ (n : ℚ) < m := by exact_mod_cast h2
      simp [genericCompare, lex3, h1, h2, h1q, h2q]

theorem lex3_map_ratCast : ∀ s t : List Nat,
    lex3 (List.map (fun x : Nat => (x : ℚ)) s)
      (List.map (fun x : Nat => (x : ℚ)) t) = lex3 s t
  | [], [] => rfl
  | [], _ :: _ => rfl
  | _ :: _, [] => rfl
  | a :: as, b :: bs => by
    have hlt : ((a : ℚ) < (b : ℚ)) ↔ a < b := by exact_mod_cast Iff.rfl
    have hgt : ((b : ℚ) < (a : ℚ)) ↔ b < a := by exact_mod_cast Iff.rfl
    by_cases h1 : a < b
    · simp [lex3, h1, hlt.mpr h1]
    · by_cases h2 : b < a
      · simp [lex3, h1, h2, hgt.mpr h2, fun h => h1 (hlt.mp h)]
      · simp only [List.map_cons, lex3]
        rw [if_neg (fun h => h1 (hlt.mp h)), if_neg (fun h => h2 (hgt.mp h)),
          if_neg h1, if_neg h2]
        exact lex3_map_ratCast as bs

theorem f32val_some (b : Nat) (h : isNan32 b = false) :
    f32val b = some ((f32val b).getD 0) := by
  unfold f32val
  by_cases he : b / 2 ^ 23 % 2 ^ 8 = 255
  · have hf : b % 2 ^ 23 = 0 := by
      unfold isNan32 at h
      rw [he] at h
      simpa using h
    norm_num at he hf
    simp [he, hf]
  · norm_num at he
    simp [he]

theorem f64val_some (b : Nat) (h : isNan64 b = false) :
    f64val b = some ((f64val b).getD 0) := by
  unfold f64val
  by_cases he : b / 2 ^ 52 % 2 ^ 11 = 2047
  · have hf : b % 2 ^ 52 = 0 := by
      unfold isNan64 at h
      rw [he] at h
      simpa using h
    norm_num at he hf
    simp [he, hf]
  · norm_num at he
    simp [he]

theorem fcmp_some (x y : ℚ) : fcmp (some x) (some y) = lex3 [x] [y] := by
  by_cases h1 : x < y
  · simp [fcmp, fltLt, lex3, h1]
  · by_cases h2 : y < x
    · simp [fcmp, fltLt, lex3, h1, h2]
    · simp [fcmp, fltLt, lex3, h1, h2]

/-- The orderable kinds, with NaN floats excluded. -/
def orderableNonNan : YQLValuePB → Bool
  | .int8Value _ => true
  | .int16Value _ => true
  | .int32Value _ => true
  | .int64Value _ => true
  | .floatValue b => !isNan32 b
  | .doubleValue b => !isNan64 b
  | .decimalValue _ => true
  | .stringValue _ => true
  | .timestampValue _ => true
  | .binaryValue _ => true
  | .inetaddressValue _ => true
  | .uuidValue _ => true
  | .timeuuidValue _ => true
  | _ => false

/-- The order key: every orderable payload mapped into List ℚ so that
CompareTo agrees with lexicographic comparison of the keys. -/
def okey : YQLValuePB → List ℚ
  | .int8Value n => [(n : ℚ)]
  | .int16Value n => [(n : ℚ)]
  | .int32Value n => [(n : ℚ)]
  | .int64Value n => [(n : ℚ)]
  | .floatValue b => [(f32val b).getD 0]
  | .doubleValue b => [(f64val b).getD 0]
  | .decimalValue s => List.map (fun x : Nat => (x : ℚ)) s
  | .stringValue s => List.map (fun x : Nat => (x : ℚ)) s
  | .timestampValue n => [(n : ℚ)]
  | .binaryValue s => List.map (fun x : Nat => (x : ℚ)) s
  | .inetaddressValue s => List.map (fun x : Nat => (x : ℚ)) s
  | .uuidValue s => List.map (fun x : Nat => (x : ℚ)) s
  | .timeuuidValue s => List.map (fun x : Nat => (x : ℚ)) s
  | _ => []

theorem lex3_flatMap_ratCast (s t : List Nat) :
    lex3 (s.flatMap fun a => ([(a : ℚ)] : List ℚ))
      (t.flatMap fun a => ([(a : ℚ)] : List ℚ)) = lex3 s t := by
  have h : ∀ l : List Nat,
      (l.flatMap fun a => ([(a : ℚ)] : List ℚ)) =
        List.map (fun x : Nat => (x : ℚ)) l := by
    intro l
    induction l with
    | nil => rfl
    | cons x xs ih =>
      rw [List.flatMap_cons, List.map_cons, ih]
      rfl
  rw [h, h, lex3_map_ratCast]

theorem cmp_float_normal (x y : Nat) (hx : isNan32 x = false)
    (hy : isNan32 y = false) :
    compareToPB (.floatValue x) (.floatValue y) =
      some (lex3 (okey (.floatValue x)) (okey (.floatValue y))) := by
  have e : compareToPB (.floatValue x) (.floatValue y) =
      some (fcmp (f32val x) (f32val y)) := by
    simp [compareToPB, comparable, bothNotNull, YQLValuePB.isNull,
      YQLValuePB.valueCase, YQLValuePB.float_value]
  rw [e, f32val_some x hx, f32val_some y hy, fcmp_some]
  rfl

theorem cmp_double_normal (x y : Nat) (hx : isNan64 x = false)
    (hy : isNan64 y = false) :
    compareToPB (.doubleValue x) (.doubleValue y) =
      some (lex3 (okey (.doubleValue x)) (okey (.doubleValue y))) := by
  have e : compareToPB (.doubleValue x) (.doubleValue y) =
      some (fcmp (f64val x) (f64val y)) := by
    simp [compareToPB, comparable, bothNotNull, YQLValuePB.isNull,
      YQLValuePB.valueCase, YQLValuePB.double_value]
  rw [e, f64val_some x hx, f64val_some y hy, fcmp_some]
  rfl

/-- Normalization: on same-kind orderable non-NaN operands, CompareTo is
the lexicographic comparison of the order keys. -/
theorem cmp_normal (a b : YQLValuePB)
    (h1 : orderableNonNan a = true) (h2 : orderableNonNan b = true)
    (hsame : a.valueCase = b.valueCase) :
    compareToPB a b = some (lex3 (okey a) (okey b)) := by
  cases a <;> cases b <;>
    first
      | (exfalso
         revert hsame
         simp only [YQLValuePB.valueCase]
         decide)
      | (exfalso
         revert h1
         simp only [orderableNonNan]
         decide)
      | exact cmp_float_normal _ _ (by simpa [orderableNonNan] using h1)
          (by simpa [orderableNonNan] using h2)
      | exact cmp_double_normal _ _ (by simpa [orderableNonNan] using h1)
          (by simpa [orderableNonNan] using h2)
      | (simp [compareToPB, comparable, bothNotNull, YQLValuePB.isNull,
          YQLValuePB.valueCase, YQLValuePB.int8_value, YQLValuePB.int16_value,
          YQLValuePB.int32_value, YQLValuePB.int64_value,
          YQLValuePB.timestamp_value, YQLValuePB.decimal_value,
          YQLValuePB.string_value, YQLValuePB.binary_value,
          YQLValuePB.inetaddress_value, YQLValuePB.uuid_value,
          YQLValuePB.timeuuid_value, okey, genericCompare_eq_lex3,
          lexCmp_eq_lex3, lex3_map_ratCast, lex3_flatMap_ratCast]
         done)

theorem orderableNonNan_not_null (v : YQLValuePB)
    (h : orderableNonNan v = true) : v.isNull = false := by
  cases v <;> simp_all [orderableNonNan, YQLValuePB.isNull]

set_option maxRecDepth 100000 in
/-- C3 counterexample: CompareTo on float32 is not transitive as the claim
states, because the C++ template compares NaN as "equal" to everything:
with a = 1.0f (bits 0x3F800000), b = NaN (bits 0x7FC00000) and
c = 2.0f (bits 0x40000000), all non-null and of the same kind,
compare(a,b) and compare(b,c) both return equal while compare(a,c)
returns less, not equal. -/
theorem c3_counterexample :
    (YQLValuePB.floatValue 1065353216).valueCase =
        (YQLValuePB.floatValue 2143289344).valueCase ∧
      bothNotNull (.floatValue 1065353216) (.floatValue 2143289344) = true ∧
      bothNotNull (.floatValue 2143289344) (.floatValue 1073741824) = true ∧
      compareToPB (.floatValue 1065353216) (.floatValue 2143289344) = some 0 ∧
      compareToPB (.floatValue 2143289344) (.floatValue 1073741824) = some 0 ∧
      compareToPB (.floatValue 1065353216) (.floatValue 1073741824) = some (-1) ∧
      compareToPB (.floatValue 1065353216) (.floatValue 1073741824) ≠ some 0 := by
  refine ⟨rfl, rfl, rfl, rfl, rfl, rfl, ?_⟩
  intro h
  rw [show compareToPB (.floatValue 1065353216) (.floatValue 1073741824) =
    some (-1) from rfl] at h
  exact absurd (Option.some.inj h) (by norm_num)

/-- C3 (amended): for all non-null values a, b, c sharing the same
orderable kind, with float32/float64 values restricted to non-NaN bit
patterns, compare is antisymmetric (compare(b,a) is the negation of
compare(a,b)), transitive (both on "less" and on "equal"), and
consistent with the relational operators (a < b holds if and only if
compare(a,b) returns a negative result). -/
theorem c3_compare_total_order (a b c : YQLValuePB)
    (ha : orderableNonNan a = true) (hb : orderableNonNan b = true)
    (hc : orderableNonNan c = true)
    (hab : a.valueCase = b.valueCase) (hbc : b.valueCase = c.valueCase) :
    (∀ n, compareToPB a b = some n → compareToPB b a = some (-n)) ∧
    (∀ n m, compareToPB a b = some n → compareToPB b c = some m →
      (n < 0 → m < 0 → ∃ k, compareToPB a c = some k ∧ k < 0) ∧
      (n = 0 → m = 0 → compareToPB a c = some 0)) ∧
    (yqlLt a b = some true ↔ ∃ n, compareToPB a b = some n ∧ n < 0) := by
  have hac : a.valueCase = c.valueCase := hab.trans hbc
  have eab := cmp_normal a b ha hb hab
  have eba := cmp_normal b a hb ha hab.symm
  have ebc := cmp_normal b c hb hc hbc
  have eac := cmp_normal a c ha hc hac
  refine ⟨?_, ?_, ?_⟩
  · intro n h
    have hn : lex3 (okey a) (okey b) = n := Option.some.inj (eab.symm.trans h)
    rw [eba, lex3_swap (okey a) (okey b), hn]
  · intro n m h1 h2
    have hn : lex3 (okey a) (okey b) = n := Option.some.inj (eab.symm.trans h1)
    have hm : lex3 (okey b) (okey c) = m := Option.some.inj (ebc.symm.trans h2)
    constructor
    · intro hn0 hm0
      refine ⟨lex3 (okey a) (okey c), eac, ?_⟩
      exact lex3_trans_neg _ _ _ (by rw [hn]; exact hn0) (by rw [hm]; exact hm0)
    · intro hn0 hm0
      have h1e : okey a = okey b := (lex3_eq_iff _ _).mp (by rw [hn, hn0])
      have h2e : okey b = okey c := (lex3_eq_iff _ _).mp (by rw [hm, hm0])
      rw [eac, h1e, h2e, (lex3_eq_iff (okey c) (okey c)).mpr rfl]
  · have hbn : bothNotNull a b = true := by
      simp [bothNotNull, orderableNonNan_not_null a ha,
        orderableNonNan_not_null b hb]
    have hyl : yqlLt a b = some (decide (lex3 (okey a) (okey b) < 0)) := by
      simp [yqlLt, hbn, eab]
    constructor
    · intro h
      rw [hyl] at h
      refine ⟨lex3 (okey a) (okey b), eab, ?_⟩
      simpa using h
    · rintro ⟨n, hn, hn0⟩
      have he : lex3 (okey a) (okey b) = n := Option.some.inj (eab.symm.trans hn)
      rw [hyl, he]
      simpa using hn0

/-- Witness for the amended C3 at int32 values 1, 2, 3. -/
theorem c3_compare_total_order_witness :
    yqlLt (.int32Value 1) (.int32Value 2) = some true ↔
      ∃ n, compareToPB (.int32Value 1) (.int32Value 2) = some n ∧ n < 0 :=
  (c3_compare_total_order (.int32Value 1) (.int32Value 2) (.int32Value 3)
    rfl rfl rfl rfl rfl).2.2

/-- Witness for C10: a list descriptor with outer length 0 and inner
count -1 decodes to the empty list without touching the trailing byte. -/
theorem c10_negative_count_empty_collection_witness :
    deserialize (.mk .LIST [.mk .INT32 []])
        ([0, 0, 0, 0] ++ [255, 255, 255, 255] ++ [9]) =
      .ok (.listValue [], [9]) :=
  (c10_negative_count_empty_collection (.mk .INT32 []) (.mk .INT32 [])
    (.mk .INT32 []) [] [0, 0, 0, 0] [255, 255, 255, 255] [9] rfl rfl
    (by rw [show toSigned 4 (loadBE [0, 0, 0, 0]) = 0 from rfl]; norm_num)
    (by rw [show toSigned 4 (loadBE [255, 255, 255, 255]) = -1 from rfl]
        norm_num)).2.2

/-- Witness for C6 at the encoding of the empty int32-to-int32 map. -/
theorem c6_map_equal_lengths_witness :
    ([] : List YQLValuePB).length = ([] : List YQLValuePB).length :=
  c6_map_equal_lengths (.mk .INT32 []) (.mk .INT32 []) [] [0, 0, 0, 4, 0, 0, 0, 0]
    (.mapValue [] []) [] rfl [] [] rfl

/-! ### C1: the round trip for valid values

The round-trip development: helper decode lemmas (one per payload
framing), the element-sequence and map-entry round trips, and the main
induction on serializer fuel. -/

theorem toSigned4_int (X : Int) (h0 : 0 ≤ X) (h : X < 2147483648) :
    toSigned 4 (loadBE (intStore 4 X)) = X := by
  have h4 : ((256 ^ 4 : Nat) : Int) = 4294967296 := by norm_num
  apply toSigned_loadBE_intStore <;> rw [h4] <;> omega

theorem read4_intStore (X : Int) (tail : List Nat) :
    cqlDecodeNum 4 4 (intStore 4 X ++ tail) = .ok (loadBE (intStore 4 X), tail) := by
  have h := cqlDecodeNum_exact 4 (intStore 4 X) tail (intStore_length 4 X)
  simpa using h

theorem cqlDecodeBytes_exact (s rest : List Nat) :
    cqlDecodeBytes (s.length : Int) (s ++ rest) = .ok (s, rest) := by
  unfold cqlDecodeBytes
  rw [if_neg (by omega), if_neg (by simp only [List.length_append]; push_cast; omega)]
  rw [Int.toNat_natCast, List.take_left, List.drop_left]

theorem typeSizeList_cons (t : YQLType) (ts : List YQLType) :
    typeSizeList (t :: ts) = typeSize t + typeSizeList ts + 1 := rfl

/-- Decoding the framed encoding of an int8 value recovers it. -/
theorem deserializeF_int8_enc (fd : Nat) (ps : List YQLType) (i : Int)
    (rest : List Nat) (hlo : -((256 ^ 1 : Nat) : Int) ≤ 2 * i)
    (hhi : 2 * i < ((256 ^ 1 : Nat) : Int)) :
    deserializeF (fd + 1) (.mk .INT8 ps)
        ((intStore 4 ((1 : Nat) : Int) ++ intStore 1 i) ++ rest) =
      .ok (.int8Value i, rest) := by
  have h1 := read4_intStore ((1 : Nat) : Int) (intStore 1 i ++ rest)
  have h2 : toSigned 4 (loadBE (intStore 4 ((1 : Nat) : Int))) = ((1 : Nat) : Int) :=
    toSigned4_int _ (by norm_num) (by norm_num)
  have h3 := cqlDecodeNum_exact 1 (intStore 1 i) rest (intStore_length 1 i)
  have h4 := toSigned_loadBE_intStore 1 i hlo hhi
  rw [List.append_assoc]
  simp only [deserializeF, h1, h2, h3, h4]
  rw [if_neg (by norm_num)]

/-- Decoding the framed encoding of an int16 value recovers it. -/
theorem deserializeF_int16_enc (fd : Nat) (ps : List YQLType) (i : Int)
    (rest : List Nat) (hlo : -((256 ^ 2 : Nat) : Int) ≤ 2 * i)
    (hhi : 2 * i < ((256 ^ 2 : Nat) : Int)) :
    deserializeF (fd + 1) (.mk .INT16 ps)
        ((intStore 4 ((2 : Nat) : Int) ++ intStore 2 i) ++ rest) =
      .ok (.int16Value i, rest) := by
  have h1 := read4_intStore ((2 : Nat) : Int) (intStore 2 i ++ rest)
  have h2 : toSigned 4 (loadBE (intStore 4 ((2 : Nat) : Int))) = ((2 : Nat) : Int) :=
    toSigned4_int _ (by norm_num) (by norm_num)
  have h3 := cqlDecodeNum_exact 2 (intStore 2 i) rest (intStore_length 2 i)
  have h4 := toSigned_loadBE_intStore 2 i hlo hhi
  rw [List.append_assoc]
  simp only [deserializeF, h1, h2, h3, h4]
  rw [if_neg (by norm_num)]

/-- Decoding the framed encoding of an int32 value recovers it. -/
theorem deserializeF_int32_enc (fd : Nat) (ps : List YQLType) (i : Int)
    (rest : List Nat) (hlo : -((256 ^ 4 : Nat) : Int) ≤ 2 * i)
    (hhi : 2 * i < ((256 ^ 4 : Nat) : Int)) :
    deserializeF (fd + 1) (.mk .INT32 ps)
        ((intStore 4 ((4 : Nat) : Int) ++ intStore 4 i) ++ rest) =
      .ok (.int32Value i, rest) := by
  have h1 := read4_intStore ((4 : Nat) : Int) (intStore 4 i ++ rest)
  have h2 : toSigned 4 (loadBE (intStore 4 ((4 : Nat) : Int))) = ((4 : Nat) : Int) :=
    toSigned4_int _ (by norm_num) (by norm_num)
  have h3 := cqlDecodeNum_exact 4 (intStore 4 i) rest (intStore_length 4 i)
  have h4 := toSigned_loadBE_intStore 4 i hlo hhi
  rw [List.append_assoc]
  simp only [deserializeF, h1, h2, h3, h4]
  rw [if_neg (by norm_num)]

/-- Decoding the framed encoding of an int64 value recovers it. -/
theorem deserializeF_int64_enc (fd : Nat) (ps : List YQLType) (i : Int)
    (rest : List Nat) (hlo : -((256 ^ 8 : Nat) : Int) ≤ 2 * i)
    (hhi : 2 * i < ((256 ^ 8 : Nat) : Int)) :
    deserializeF (fd + 1) (.mk .INT64 ps)
        ((intStore 4 ((8 : Nat) : Int) ++ intStore 8 i) ++ rest) =
      .ok (.int64Value i, rest) := by
  have h1 := read4_intStore ((8 : Nat) : Int) (intStore 8 i ++ rest)
  have h2 : toSigned 4 (loadBE (intStore 4 ((8 : Nat) : Int))) = ((8 : Nat) : Int) :=
    toSigned4_int _ (by norm_num) (by norm_num)
  have h3 := cqlDecodeNum_exact 8 (intStore 8 i) rest (intStore_length 8 i)
  have h4 := toSigned_loadBE_intStore 8 i hlo hhi
  rw [List.append_assoc]
  simp only [deserializeF, h1, h2, h3, h4]
  rw [if_neg (by norm_num)]

/-- Decoding the framed encoding of a bool value recovers it. -/
theorem deserializeF_bool_enc (fd : Nat) (ps : List YQLType) (b : Bool)
    (rest : List Nat) :
    deserializeF (fd + 1) (.mk .BOOL ps)
        ((intStore 4 ((1 : Nat) : Int) ++ intStore 1 (if b then 1 else 0)) ++ rest) =
      .ok (.boolValue b, rest) := by
  have h1 := read4_intStore ((1 : Nat) : Int) (intStore 1 (if b then 1 else 0) ++ rest)
  have h2 : toSigned 4 (loadBE (intStore 4 ((1 : Nat) : Int))) = ((1 : Nat) : Int) :=
    toSigned4_int _ (by norm_num) (by norm_num)
  have h3 := cqlDecodeNum_exact 1 (intStore 1 (if b then 1 else 0)) rest
    (intStore_length 1 (if b then 1 else 0))
  rw [List.append_assoc]
  simp only [deserializeF, h1, h2, h3]
  rw [if_neg (by norm_num)]
  cases b <;> rfl

/-- Decoding the framed millisecond encoding of a whole-millisecond
timestamp recovers the microsecond value. -/
theorem deserializeF_ts_enc (fd : Nat) (ps : List YQLType) (q : Int)
    (rest : List Nat) (hlo : -((256 ^ 8 : Nat) : Int) ≤ 2 * q)
    (hhi : 2 * q < ((256 ^ 8 : Nat) : Int)) :
    deserializeF (fd + 1) (.mk .TIMESTAMP ps)
        ((intStore 4 ((8 : Nat) : Int) ++ intStore 8 q) ++ rest) =
      .ok (.timestampValue (q * 1000), rest) := by
  have h1 := read4_intStore ((8 : Nat) : Int) (intStore 8 q ++ rest)
  have h2 : toSigned 4 (loadBE (intStore 4 ((8 : Nat) : Int))) = ((8 : Nat) : Int) :=
    toSigned4_int _ (by norm_num) (by norm_num)
  have h3 := cqlDecodeNum_exact 8 (intStore 8 q) rest (intStore_length 8 q)
  have h4 := toSigned_loadBE_intStore 8 q hlo hhi
  have h5 : adjustPrecision q cqlInputPrecision internalPrecision = q * 1000 := by
    unfold adjustPrecision cqlInputPrecision internalPrecision
    norm_num
  rw [List.append_assoc]
  simp only [deserializeF, h1, h2, h3, h4, h5]
  rw [if_neg (by norm_num)]

/-- Decoding the framed encoding of a float bit pattern recovers it. -/
theorem deserializeF_float_enc (fd : Nat) (ps : List YQLType) (bits : Nat)
    (rest : List Nat) (h : bits < 2 ^ 32) :
    deserializeF (fd + 1) (.mk .FLOAT ps)
        ((intStore 4 ((4 : Nat) : Int) ++ beBytesW 4 bits) ++ rest) =
      .ok (.floatValue bits, rest) := by
  have h1 := read4_intStore ((4 : Nat) : Int) (beBytesW 4 bits ++ rest)
  have h2 : toSigned 4 (loadBE (intStore 4 ((4 : Nat) : Int))) = ((4 : Nat) : Int) :=
    toSigned4_int _ (by norm_num) (by norm_num)
  have h3 := cqlDecodeNum_exact 4 (beBytesW 4 bits) rest (beBytesW_length 4 bits)
  have h4 : loadBE (beBytesW 4 bits) = bits := by
    rw [loadBE_beBytesW]
    apply Nat.mod_eq_of_lt
    norm_num at h ⊢
    omega
  rw [List.append_assoc]
  simp only [deserializeF, h1, h2, h3, h4]
  rw [if_neg (by norm_num)]

/-- Decoding the framed encoding of a double bit pattern recovers it. -/
theorem deserializeF_double_enc (fd : Nat) (ps : List YQLType) (bits : Nat)
    (rest : List Nat) (h : bits < 2 ^ 64) :
    deserializeF (fd + 1) (.mk .DOUBLE ps)
        ((intStore 4 ((8 : Nat) : Int) ++ beBytesW 8 bits) ++ rest) =
      .ok (.doubleValue bits, rest) := by
  have h1 := read4_intStore ((8 : Nat) : Int) (beBytesW 8 bits ++ rest)
  have h2 : toSigned 4 (loadBE (intStore 4 ((8 : Nat) : Int))) = ((8 : Nat) : Int) :=
    toSigned4_int _ (by norm_num) (by norm_num)
  have h3 := cqlDecodeNum_exact 8 (beBytesW 8 bits) rest (beBytesW_length 8 bits)
  have h4 : loadBE (beBytesW 8 bits) = bits := by
    rw [loadBE_beBytesW]
    apply Nat.mod_eq_of_lt
    norm_num at h ⊢
    omega
  rw [List.append_assoc]
  simp only [deserializeF, h1, h2, h3, h4]
  rw [if_neg (by norm_num)]

/-- Decoding the framed encoding of a string payload recovers it. -/
theorem deserializeF_string_enc (fd : Nat) (ps : List YQLType) (s rest : List Nat)
    (h : s.length < 2 ^ 31) :
    deserializeF (fd + 1) (.mk .STRING ps)
        ((intStore 4 (s.length : Int) ++ s) ++ rest) =
      .ok (.stringValue s, rest) := by
  have h1 := read4_intStore (s.length : Int) (s ++ rest)
  have h2 : toSigned 4 (loadBE (intStore 4 (s.length : Int))) = (s.length : Int) :=
    toSigned4_int _ (by omega) (by norm_num at h; exact_mod_cast h)
  have h3 := cqlDecodeBytes_exact s rest
  rw [List.append_assoc]
  simp only [deserializeF, h1, h2, h3]
  rw [if_neg (by omega)]

/-- Decoding the framed encoding of a binary payload recovers it. -/
theorem deserializeF_binary_enc (fd : Nat) (ps : List YQLType) (s rest : List Nat)
    (h : s.length < 2 ^ 31) :
    deserializeF (fd + 1) (.mk .BINARY ps)
        ((intStore 4 (s.length : Int) ++ s) ++ rest) =
      .ok (.binaryValue s, rest) := by
  have h1 := read4_intStore (s.length : Int) (s ++ rest)
  have h2 : toSigned 4 (loadBE (intStore 4 (s.length : Int))) = (s.length : Int) :=
    toSigned4_int _ (by omega) (by norm_num at h; exact_mod_cast h)
  have h3 := cqlDecodeBytes_exact s rest
  rw [List.append_assoc]
  simp only [deserializeF, h1, h2, h3]
  rw [if_neg (by omega)]

/-- Decoding the framed encoding of an inet payload recovers it. -/
theorem deserializeF_inet_enc (fd : Nat) (ps : List YQLType) (s rest : List Nat)
    (hok : inetFromBytesOk s = true) :
    deserializeF (fd + 1) (.mk .INET ps)
        ((intStore 4 (s.length : Int) ++ s) ++ rest) =
      .ok (.inetaddressValue s, rest) := by
  have hlen : s.length < 2147483648 := by
    simp only [inetFromBytesOk, Bool.or_eq_true, beq_iff_eq] at hok
    omega
  have h1 := read4_intStore (s.length : Int) (s ++ rest)
  have h2 : toSigned 4 (loadBE (intStore 4 (s.length : Int))) = (s.length : Int) :=
    toSigned4_int _ (by omega) (by exact_mod_cast hlen)
  have h3 := cqlDecodeBytes_exact s rest
  rw [List.append_assoc]
  simp only [deserializeF, h1, h2, h3]
  rw [if_neg (by omega), if_pos hok]

/-- Decoding the framed encoding of a uuid payload recovers it. -/
theorem deserializeF_uuid_enc (fd : Nat) (ps : List YQLType) (s rest : List Nat)
    (hok : uuidFromBytesOk s = true) :
    deserializeF (fd + 1) (.mk .UUID ps)
        ((intStore 4 (s.length : Int) ++ s) ++ rest) =
      .ok (.uuidValue s, rest) := by
  have hlen : s.length < 2147483648 := by
    simp only [uuidFromBytesOk, beq_iff_eq] at hok
    omega
  have h1 := read4_intStore (s.length : Int) (s ++ rest)
  have h2 : toSigned 4 (loadBE (intStore 4 (s.length : Int))) = (s.length : Int) :=
    toSigned4_int _ (by omega) (by exact_mod_cast hlen)
  have h3 := cqlDecodeBytes_exact s rest
  rw [List.append_assoc]
  simp only [deserializeF, h1, h2, h3]
  rw [if_neg (by omega), if_pos hok]

/-- Decoding the framed encoding of a time-uuid payload recovers it. -/
theorem deserializeF_timeuuid_enc (fd : Nat) (ps : List YQLType) (s rest : List Nat)
    (hok : uuidFromBytesOk s = true) (htu : isTimeUuid s = true) :
    deserializeF (fd + 1) (.mk .TIMEUUID ps)
        ((intStore 4 (s.length : Int) ++ s) ++ rest) =
      .ok (.timeuuidValue s, rest) := by
  have hlen : s.length < 2147483648 := by
    simp only [uuidFromBytesOk, beq_iff_eq] at hok
    omega
  have h1 := read4_intStore (s.length : Int) (s ++ rest)
  have h2 : toSigned 4 (loadBE (intStore 4 (s.length : Int))) = (s.length : Int) :=
    toSigned4_int _ (by omega) (by exact_mod_cast hlen)
  have h3 := cqlDecodeBytes_exact s rest
  rw [List.append_assoc]
  simp only [deserializeF, h1, h2, h3]
  rw [if_neg (by omega), if_pos hok, if_pos htu]

theorem getD4_append (l1 l2 : List Nat) (h : l1.length = 4) :
    (l1 ++ l2).getD 4 0 = l2.getD 0 0 := by
  have hex : ∃ a b c e, l1 = [a, b, c, e] := by
    rcases l1 with _ | ⟨a, _ | ⟨b, _ | ⟨c, _ | ⟨e, _ | ⟨f, tl⟩⟩⟩⟩⟩ <;>
      simp only [List.length_cons, List.length_nil] at h <;>
      first
      | exact ⟨a, b, c, e, rfl⟩
      | omega
  obtain ⟨a, b, c, e, rfl⟩ := hex
  rfl

/-- Parsing the wire form of an in-range decimal recovers the decimal. -/
theorem decodeSBD_encodeSBD (d : DecimalM) (h : decimalOutOfRange d = false) :
    decodeFromSerializedBigDecimal (encodeToSerializedBigDecimal d).1 = .ok d := by
  simp only [decimalOutOfRange, decide_eq_false_iff_not, not_or, not_lt,
    not_le] at h
  obtain ⟨hlo, hhi⟩ := h
  norm_num at hlo hhi
  show decodeFromSerializedBigDecimal
      (intStore 4 d.scale ++
        (if d.unscaled < 0 then 1 else 0) :: natToBE d.unscaled.natAbs) = .ok d
  unfold decodeFromSerializedBigDecimal
  have hL : (intStore 4 d.scale ++
      (if d.unscaled < 0 then (1 : Nat) else 0) :: natToBE d.unscaled.natAbs).length
      = 5 + (natToBE d.unscaled.natAbs).length := by
    simp [intStore_length]
    omega
  rw [hL, if_neg (by omega)]
  have htake : (intStore 4 d.scale ++
      (if d.unscaled < 0 then (1 : Nat) else 0) :: natToBE d.unscaled.natAbs).take 4
      = intStore 4 d.scale := List.take_left' (intStore_length 4 d.scale)
  have hsc : toSigned 4 (loadBE (intStore 4 d.scale)) = d.scale := by
    have h4 : ((256 ^ 4 : Nat) : Int) = 4294967296 := by norm_num
    apply toSigned_loadBE_intStore <;> rw [h4] <;> omega
  have hget : (intStore 4 d.scale ++
      (if d.unscaled < 0 then (1 : Nat) else 0) :: natToBE d.unscaled.natAbs).getD 4 0
      = (if d.unscaled < 0 then (1 : Nat) else 0) := by
    rw [getD4_append _ _ (intStore_length 4 d.scale)]
    simp
  have hdrop : (intStore 4 d.scale ++
      (if d.unscaled < 0 then (1 : Nat) else 0) :: natToBE d.unscaled.natAbs).drop 5
      = natToBE d.unscaled.natAbs := by
    rw [show intStore 4 d.scale ++
        (if d.unscaled < 0 then (1 : Nat) else 0) :: natToBE d.unscaled.natAbs
      = (intStore 4 d.scale ++ [if d.unscaled < 0 then (1 : Nat) else 0])
          ++ natToBE d.unscaled.natAbs from by simp]
    exact List.drop_left' (by simp [intStore_length])
  rw [htake, hsc, hget, hdrop, loadBE_natToBE]
  have hu : (if (if d.unscaled < 0 then (1 : Nat) else 0) = 1 then (-1 : Int) else 1)
      * (d.unscaled.natAbs : Int) = d.unscaled := by
    rcases lt_or_le d.unscaled 0 with hneg | hpos
    · rw [if_pos hneg, if_pos rfl]
      have habs : ((d.unscaled.natAbs : Nat) : Int) = -d.unscaled :=
        Int.ofNat_natAbs_of_nonpos hneg.le
      omega
    · rw [if_neg (not_lt.mpr hpos), if_neg (by norm_num)]
      have habs : ((d.unscaled.natAbs : Nat) : Int) = d.unscaled :=
        Int.natAbs_of_nonneg hpos
      omega
  show Except.ok (⟨d.scale,
      (if (if d.unscaled < 0 then (1 : Nat) else 0) = 1 then (-1 : Int) else 1)
        * (d.unscaled.natAbs : Int)⟩ : DecimalM) = Except.ok d
  rw [hu]

/-- Decoding the framed wire encoding of a valid decimal payload recovers
the canonical comparable bytes. -/
theorem deserializeF_decimal_enc (fd : Nat) (ps : List YQLType) (bs rest : List Nat)
    (hval : validDecimalBytes bs = true) :
    deserializeF (fd + 1) (.mk .DECIMAL ps)
        ((intStore 4
            (((encodeToSerializedBigDecimal (decimalFromComparable bs)).1.length : Int))
          ++ (encodeToSerializedBigDecimal (decimalFromComparable bs)).1) ++ rest) =
      .ok (.decimalValue bs, rest) := by
  simp only [validDecimalBytes, Bool.and_eq_true, decide_eq_true_eq,
    Bool.not_eq_true'] at hval
  obtain ⟨⟨henc, hoor⟩, hblen⟩ := hval
  norm_num at hblen
  have hbl := congrArg List.length henc
  simp only [encodeToComparable, List.length_cons, List.length_append,
    beBytesW_length] at hbl
  have hwl : (encodeToSerializedBigDecimal (decimalFromComparable bs)).1.length
      = 5 + (natToBE (decimalFromComparable bs).unscaled.natAbs).length := by
    simp [encodeToSerializedBigDecimal, intStore_length]
    omega
  have hwlen : (encodeToSerializedBigDecimal (decimalFromComparable bs)).1.length
      < 2147483648 := by
    rw [hwl]; omega
  have h1 := read4_intStore
    (((encodeToSerializedBigDecimal (decimalFromComparable bs)).1.length : Int))
    ((encodeToSerializedBigDecimal (decimalFromComparable bs)).1 ++ rest)
  have h2 : toSigned 4 (loadBE (intStore 4
      (((encodeToSerializedBigDecimal (decimalFromComparable bs)).1.length : Int))))
      = (((encodeToSerializedBigDecimal (decimalFromComparable bs)).1.length : Int)) :=
    toSigned4_int _ (by omega) (by exact_mod_cast hwlen)
  have h3 := cqlDecodeBytes_exact (encodeToSerializedBigDecimal (decimalFromComparable bs)).1 rest
  have h4 := decodeSBD_encodeSBD (decimalFromComparable bs) hoor
  rw [List.append_assoc]
  simp only [deserializeF, h1, h2, h3, h4, henc]
  rw [if_neg (by omega)]

/-- Round trip for a sequence of collection elements, given the round
trip of each element. -/
theorem rt_elems (fuel fd : Nat) (et : YQLType)
    (ih : ∀ v, validF fuel et v = true →
      ∃ out, (∀ buf, serializeF fuel et v buf = some (buf ++ out)) ∧
        ∀ rest, deserializeF fd et (out ++ rest) = .ok (v, rest)) :
    ∀ es : List YQLValuePB, es.all (validF fuel et) = true →
      ∃ out, (∀ buf, serElems (serializeF fuel et) es buf = some (buf ++ out)) ∧
        ∀ rest, decodeElems (deserializeF fd et) es.length (out ++ rest) =
          .ok (es, rest) := by
  intro es
  induction es with
  | nil =>
    intro _
    exact ⟨[], fun buf => by simp [serElems],
      fun rest => by simp [decodeElems]⟩
  | cons e es ihes =>
    intro hall
    simp only [List.all_cons, Bool.and_eq_true] at hall
    obtain ⟨o1, hs1, hd1⟩ := ih e hall.1
    obtain ⟨o2, hs2, hd2⟩ := ihes hall.2
    refine ⟨o1 ++ o2, ?_, ?_⟩
    · intro buf
      simp only [serElems, hs1, hs2, List.append_assoc]
    · intro rest
      simp only [List.length_cons, decodeElems, List.append_assoc, hd1, hd2]

/-- Round trip for a sequence of map entries, given the round trips of
each key and each value. -/
theorem rt_map_entries (fuel fd : Nat) (kt vt : YQLType)
    (ihk : ∀ v, validF fuel kt v = true →
      ∃ out, (∀ buf, serializeF fuel kt v buf = some (buf ++ out)) ∧
        ∀ rest, deserializeF fd kt (out ++ rest) = .ok (v, rest))
    (ihv : ∀ v, validF fuel vt v = true →
      ∃ out, (∀ buf, serializeF fuel vt v buf = some (buf ++ out)) ∧
        ∀ rest, deserializeF fd vt (out ++ rest) = .ok (v, rest)) :
    ∀ ks ws : List YQLValuePB, ks.length = ws.length →
      ks.all (validF fuel kt) = true → ws.all (validF fuel vt) = true →
      ∃ out, (∀ buf, serMapEntries (serializeF fuel kt) (serializeF fuel vt)
          ks ws buf = some (buf ++ out)) ∧
        ∀ rest, decodeMapEntries (deserializeF fd kt) (deserializeF fd vt)
          ks.length (out ++ rest) = .ok (ks, ws, rest) := by
  intro ks
  induction ks with
  | nil =>
    intro ws hlen _ _
    have hws : ws = [] := by
      cases ws with
      | nil => rfl
      | cons w ws => simp at hlen
    subst hws
    exact ⟨[], fun buf => by simp [serMapEntries],
      fun rest => by simp [decodeMapEntries]⟩
  | cons k ks ihks =>
    intro ws hlen hka hwa
    cases ws with
    | nil => simp at hlen
    | cons w ws =>
      simp only [List.all_cons, Bool.and_eq_true] at hka hwa
      obtain ⟨ok1, hks1, hkd1⟩ := ihk k hka.1
      obtain ⟨ov1, hvs1, hvd1⟩ := ihv w hwa.1
      obtain ⟨o2, hs2, hd2⟩ := ihks ws (by simpa using hlen) hka.2 hwa.2
      refine ⟨ok1 ++ (ov1 ++ o2), ?_, ?_⟩
      · intro buf
        simp only [serMapEntries, hks1, hvs1, hs2, List.append_assoc]
      · intro rest
        simp only [List.length_cons, decodeMapEntries, List.append_assoc,
          hkd1, hvd1, hd2]

/-- The round trip for every valid value, by induction on serializer fuel
(in lockstep with the validity predicate's fuel): serializing appends a
byte string determined by the value, and deserializing those bytes with
any sufficient descriptor fuel recovers the value exactly. -/
theorem serializeF_deserializeF_roundTrip :
    ∀ (fuel : Nat) (t : YQLType) (v : YQLValuePB) (fd : Nat),
      typeSize t ≤ fd → validF fuel t v = true →
      ∃ out, (∀ buf, serializeF fuel t v buf = some (buf ++ out)) ∧
        ∀ rest, deserializeF fd t (out ++ rest) = .ok (v, rest) := by
  intro fuel
  induction fuel with
  | zero =>
    intro t v fd _ hv
    exact absurd hv (by simp [validF])
  | succ fuel ih =>
    intro t v fd hfd hv
    obtain ⟨m, ps⟩ := t
    rw [typeSize_eq] at hfd
    obtain ⟨fdp, rfl⟩ : ∃ fdp, fd = fdp + 1 := ⟨fd - 1, by omega⟩
    cases m with
    | INT8 =>
      cases v <;> try (exfalso; revert hv; simp only [validF]; decide)
      rename_i n
      simp only [validF, decide_eq_true_eq] at hv
      norm_num at hv
      refine ⟨intStore 4 ((1 : Nat) : Int) ++ intStore 1 n, ?_, ?_⟩
      · intro buf
        show some (cqlEncodeNum 1 n buf) = _
        rw [cqlEncodeNum, List.append_assoc]
      · intro rest
        have h256 : ((256 ^ 1 : Nat) : Int) = 256 := by norm_num
        apply deserializeF_int8_enc <;> rw [h256] <;> omega
    | INT16 =>
      cases v <;> try (exfalso; revert hv; simp only [validF]; decide)
      rename_i n
      simp only [validF, decide_eq_true_eq] at hv
      norm_num at hv
      refine ⟨intStore 4 ((2 : Nat) : Int) ++ intStore 2 n, ?_, ?_⟩
      · intro buf
        show some (cqlEncodeNum 2 n buf) = _
        rw [cqlEncodeNum, List.append_assoc]
      · intro rest
        have h256 : ((256 ^ 2 : Nat) : Int) = 65536 := by norm_num
        apply deserializeF_int16_enc <;> rw [h256] <;> omega
    | INT32 =>
      cases v <;> try (exfalso; revert hv; simp only [validF]; decide)
      rename_i n
      simp only [validF, decide_eq_true_eq] at hv
      norm_num at hv
      refine ⟨intStore 4 ((4 : Nat) : Int) ++ intStore 4 n, ?_, ?_⟩
      · intro buf
        show some (cqlEncodeNum 4 n buf) = _
        rw [cqlEncodeNum, List.append_assoc]
      · intro rest
        have h256 : ((256 ^ 4 : Nat) : Int) = 4294967296 := by norm_num
        apply deserializeF_int32_enc <;> rw [h256] <;> omega
    | INT64 =>
      cases v <;> try (exfalso; revert hv; simp only [validF]; decide)
      rename_i n
      simp only [validF, decide_eq_true_eq] at hv
      norm_num at hv
      refine ⟨intStore 4 ((8 : Nat) : Int) ++ intStore 8 n, ?_, ?_⟩
      · intro buf
        show some (cqlEncodeNum 8 n buf) = _
        rw [cqlEncodeNum, List.append_assoc]
      · intro rest
        have h256 : ((256 ^ 8 : Nat) : Int) = 18446744073709551616 := by norm_num
        apply deserializeF_int64_enc <;> rw [h256] <;> omega
    | FLOAT =>
      cases v <;> try (exfalso; revert hv; simp only [validF]; decide)
      rename_i bits
      simp only [validF, decide_eq_true_eq] at hv
      refine ⟨intStore 4 ((4 : Nat) : Int) ++ beBytesW 4 bits, ?_, ?_⟩
      · intro buf
        show some (cqlEncodeFloat 4 bits buf) = _
        rw [cqlEncodeFloat, List.append_assoc]
      · intro rest
        exact deserializeF_float_enc fdp ps bits rest hv
    | DOUBLE =>
      cases v <;> try (exfalso; revert hv; simp only [validF]; decide)
      rename_i bits
      simp only [validF, decide_eq_true_eq] at hv
      refine ⟨intStore 4 ((8 : Nat) : Int) ++ beBytesW 8 bits, ?_, ?_⟩
      · intro buf
        show some (cqlEncodeFloat 8 bits buf) = _
        rw [cqlEncodeFloat, List.append_assoc]
      · intro rest
        exact deserializeF_double_enc fdp ps bits rest hv
    | DECIMAL =>
      cases v <;> try (exfalso; revert hv; simp only [validF]; decide)
      rename_i bs
      simp only [validF] at hv
      refine ⟨intStore 4
          (((encodeToSerializedBigDecimal (decimalFromComparable bs)).1.length : Int))
        ++ (encodeToSerializedBigDecimal (decimalFromComparable bs)).1, ?_, ?_⟩
      · intro buf
        show some (cqlEncodeBytes
          (encodeToSerializedBigDecimal (decimalFromComparable bs)).1 buf) = _
        rw [cqlEncodeBytes, List.append_assoc]
      · intro rest
        exact deserializeF_decimal_enc fdp ps bs rest hv
    | STRING =>
      cases v <;> try (exfalso; revert hv; simp only [validF]; decide)
      rename_i str
      simp only [validF, decide_eq_true_eq] at hv
      refine ⟨intStore 4 (str.length : Int) ++ str, ?_, ?_⟩
      · intro buf
        show some (cqlEncodeBytes str buf) = _
        rw [cqlEncodeBytes, List.append_assoc]
      · intro rest
        exact deserializeF_string_enc fdp ps str rest hv
    | BOOL =>
      cases v <;> try (exfalso; revert hv; simp only [validF]; decide)
      rename_i b
      refine ⟨intStore 4 ((1 : Nat) : Int) ++ intStore 1 (if b then 1 else 0), ?_, ?_⟩
      · intro buf
        show some (cqlEncodeNum 1 (if b then 1 else 0) buf) = _
        rw [cqlEncodeNum, List.append_assoc]
      · intro rest
        exact deserializeF_bool_enc fdp ps b rest
    | BINARY =>
      cases v <;> try (exfalso; revert hv; simp only [validF]; decide)
      rename_i str
      simp only [validF, decide_eq_true_eq] at hv
      refine ⟨intStore 4 (str.length : Int) ++ str, ?_, ?_⟩
      · intro buf
        show some (cqlEncodeBytes str buf) = _
        rw [cqlEncodeBytes, List.append_assoc]
      · intro rest
        exact deserializeF_binary_enc fdp ps str rest hv
    | TIMESTAMP =>
      cases v <;> try (exfalso; revert hv; simp only [validF]; decide)
      rename_i micros
      simp only [validF, Bool.and_eq_true, decide_eq_true_eq] at hv
      obtain ⟨hrange, hmod⟩ := hv
      norm_num at hrange
      obtain ⟨q, rfl⟩ : ∃ q, micros = 1000 * q := by
        obtain ⟨q, hq⟩ := Int.dvd_of_emod_eq_zero hmod
        exact ⟨q, hq⟩
      have hadj : adjustPrecision (1000 * q) internalPrecision cqlInputPrecision
          = q := by
        unfold adjustPrecision internalPrecision cqlInputPrecision
        norm_num
      refine ⟨intStore 4 ((8 : Nat) : Int) ++ intStore 8 q, ?_, ?_⟩
      · intro buf
        show some (cqlEncodeNum 8
          (adjustPrecision (1000 * q) internalPrecision cqlInputPrecision) buf) = _
        rw [hadj, cqlEncodeNum, List.append_assoc]
      · intro rest
        rw [show (1000 : Int) * q = q * 1000 from mul_comm 1000 q]
        have h256 : ((256 ^ 8 : Nat) : Int) = 18446744073709551616 := by norm_num
        apply deserializeF_ts_enc <;> rw [h256] <;> omega
    | INET =>
      cases v <;> try (exfalso; revert hv; simp only [validF]; decide)
      rename_i str
      simp only [validF] at hv
      refine ⟨intStore 4 (str.length : Int) ++ str, ?_, ?_⟩
      · intro buf
        show some (cqlEncodeBytes str buf) = _
        rw [cqlEncodeBytes, List.append_assoc]
      · intro rest
        exact deserializeF_inet_enc fdp ps str rest hv
    | UUID =>
      cases v <;> try (exfalso; revert hv; simp only [validF]; decide)
      rename_i str
      simp only [validF] at hv
      refine ⟨intStore 4 (str.length : Int) ++ str, ?_, ?_⟩
      · intro buf
        show some (cqlEncodeBytes str buf) = _
        rw [cqlEncodeBytes, List.append_assoc]
      · intro rest
        exact deserializeF_uuid_enc fdp ps str rest hv
    | TIMEUUID =>
      cases v <;> try (exfalso; revert hv; simp only [validF]; decide)
      rename_i str
      simp only [validF, Bool.and_eq_true] at hv
      refine ⟨intStore 4 (str.length : Int) ++ str, ?_, ?_⟩
      · intro buf
        show (if isTimeUuid str then some (cqlEncodeBytes str buf) else none) = _
        rw [if_pos hv.2, cqlEncodeBytes, List.append_assoc]
      · intro rest
        exact deserializeF_timeuuid_enc fdp ps str rest hv.1 hv.2
    | MAP =>
      cases ps with
      | nil => exfalso; revert hv; cases v <;> (simp only [validF]; decide)
      | cons kt ps1 =>
        cases ps1 with
        | nil => exfalso; revert hv; cases v <;> (simp only [validF]; decide)
        | cons vt ps2 =>
          cases v <;> try (exfalso; revert hv; simp only [validF]; decide)
          rename_i ks ws
          rw [typeSizeList_cons, typeSizeList_cons] at hfd
          simp only [validF, Bool.and_eq_true, decide_eq_true_eq] at hv
          obtain ⟨⟨⟨⟨hlen, hcnt⟩, hka⟩, hwa⟩, hsz⟩ := hv
          obtain ⟨eo, hse, hde⟩ := rt_map_entries fuel fdp kt vt
            (fun w hw => ih kt w fdp (by omega) hw)
            (fun w hw => ih vt w fdp (by omega) hw)
            ks ws hlen hka hwa
          have hshape : ∀ buf, serializeF (fuel + 1) (.mk .MAP (kt :: vt :: ps2))
              (.mapValue ks ws) buf =
            some (buf ++ intStore 4 (4 + (eo.length : Int)) ++
              intStore 4 (ks.length : Int) ++ eo) :=
            fun buf => serializeF_map_shape fuel kt vt ps2 ks ws buf eo (hse _)
          have hsz' : eo.length + 8 < 2147483648 := by
            unfold encSizeOk at hsz
            rw [hshape []] at hsz
            simp only [List.nil_append, List.length_append, intStore_length,
              decide_eq_true_eq] at hsz
            norm_num at hsz
            omega
          norm_num at hcnt
          refine ⟨intStore 4 (4 + (eo.length : Int)) ++
            (intStore 4 (ks.length : Int) ++ eo), ?_, ?_⟩
          · intro buf
            rw [hshape buf]
            simp [List.append_assoc]
          · intro rest
            have h1 := read4_intStore (4 + (eo.length : Int))
              (intStore 4 (ks.length : Int) ++ (eo ++ rest))
            have h2 : toSigned 4 (loadBE (intStore 4 (4 + (eo.length : Int))))
                = 4 + (eo.length : Int) :=
              toSigned4_int _ (by omega) (by push_cast; omega)
            have h3 := read4_intStore (ks.length : Int) (eo ++ rest)
            have h4 : toSigned 4 (loadBE (intStore 4 (ks.length : Int)))
                = (ks.length : Int) :=
              toSigned4_int _ (by omega) (by exact_mod_cast hcnt)
            have h5 := hde rest
            simp only [List.append_assoc]
            simp only [deserializeF, h1, h2, h3, h4, Int.toNat_natCast, h5]
            rw [if_neg (by omega)]
    | SET =>
      cases ps with
      | nil => exfalso; revert hv; cases v <;> (simp only [validF]; decide)
      | cons et ps1 =>
        cases v <;> try (exfalso; revert hv; simp only [validF]; decide)
        rename_i es
        rw [typeSizeList_cons] at hfd
        simp only [validF, Bool.and_eq_true, decide_eq_true_eq] at hv
        obtain ⟨⟨hcnt, hall⟩, hsz⟩ := hv
        obtain ⟨eo, hse, hde⟩ := rt_elems fuel fdp et
          (fun w hw => ih et w fdp (by omega) hw) es hall
        have hshape : ∀ buf, serializeF (fuel + 1) (.mk .SET (et :: ps1))
            (.setValue es) buf =
          some (buf ++ intStore 4 (4 + (eo.length : Int)) ++
            intStore 4 (es.length : Int) ++ eo) :=
          fun buf => serializeF_set_shape fuel et ps1 es buf eo (hse _)
        have hsz' : eo.length + 8 < 2147483648 := by
          unfold encSizeOk at hsz
          rw [hshape []] at hsz
          simp only [List.nil_append, List.length_append, intStore_length,
            decide_eq_true_eq] at hsz
          norm_num at hsz
          omega
        norm_num at hcnt
        refine ⟨intStore 4 (4 + (eo.length : Int)) ++
          (intStore 4 (es.length : Int) ++ eo), ?_, ?_⟩
        · intro buf
          rw [hshape buf]
          simp [List.append_assoc]
        · intro rest
          have h1 := read4_intStore (4 + (eo.length : Int))
            (intStore 4 (es.length : Int) ++ (eo ++ rest))
          have h2 : toSigned 4 (loadBE (intStore 4 (4 + (eo.length : Int))))
              = 4 + (eo.length : Int) :=
            toSigned4_int _ (by omega) (by push_cast; omega)
          have h3 := read4_intStore (es.length : Int) (eo ++ rest)
          have h4 : toSigned 4 (loadBE (intStore 4 (es.length : Int)))
              = (es.length : Int) :=
            toSigned4_int _ (by omega) (by exact_mod_cast hcnt)
          have h5 := hde rest
          simp only [List.append_assoc]
          simp only [deserializeF, h1, h2, h3, h4, Int.toNat_natCast, h5]
          rw [if_neg (by omega)]
    | LIST =>
      cases ps with
      | nil => exfalso; revert hv; cases v <;> (simp only [validF]; decide)
      | cons et ps1 =>
        cases v <;> try (exfalso; revert hv; simp only [validF]; decide)
        rename_i es
        rw [typeSizeList_cons] at hfd
        simp only [validF, Bool.and_eq_true, decide_eq_true_eq] at hv
        obtain ⟨⟨hcnt, hall⟩, hsz⟩ := hv
        obtain ⟨eo, hse, hde⟩ := rt_elems fuel fdp et
          (fun w hw => ih et w fdp (by omega) hw) es hall
        have hshape : ∀ buf, serializeF (fuel + 1) (.mk .LIST (et :: ps1))
            (.listValue es) buf =
          some (buf ++ intStore 4 (4 + (eo.length : Int)) ++
            intStore 4 (es.length : Int) ++ eo) :=
          fun buf => serializeF_list_shape fuel et ps1 es buf eo (hse _)
        have hsz' : eo.length + 8 < 2147483648 := by
          unfold encSizeOk at hsz
          rw [hshape []] at hsz
          simp only [List.nil_append, List.length_append, intStore_length,
            decide_eq_true_eq] at hsz
          norm_num at hsz
          omega
        norm_num at hcnt
        refine ⟨intStore 4 (4 + (eo.length : Int)) ++
          (intStore 4 (es.length : Int) ++ eo), ?_, ?_⟩
        · intro buf
          rw [hshape buf]
          simp [List.append_assoc]
        · intro rest
          have h1 := read4_intStore (4 + (eo.length : Int))
            (intStore 4 (es.length : Int) ++ (eo ++ rest))
          have h2 : toSigned 4 (loadBE (intStore 4 (4 + (eo.length : Int))))
              = 4 + (eo.length : Int) :=
            toSigned4_int _ (by omega) (by push_cast; omega)
          have h3 := read4_intStore (es.length : Int) (eo ++ rest)
          have h4 : toSigned 4 (loadBE (intStore 4 (es.length : Int)))
              = (es.length : Int) :=
            toSigned4_int _ (by omega) (by exact_mod_cast hcnt)
          have h5 := hde rest
          simp only [List.append_assoc]
          simp only [deserializeF, h1, h2, h3, h4, Int.toNat_natCast, h5]
          rw [if_neg (by omega)]
    | VARINT =>
      exfalso; revert hv; cases v <;> (simp only [validF]; decide)
    | TUPLE =>
      exfalso; revert hv; cases v <;> (simp only [validF]; decide)
    | TYPEARGS =>
      exfalso; revert hv; cases v <;> (simp only [validF]; decide)
    | UINT8 =>
      exfalso; revert hv; cases v <;> (simp only [validF]; decide)
    | UINT16 =>
      exfalso; revert hv; cases v <;> (simp only [validF]; decide)
    | UINT32 =>
      exfalso; revert hv; cases v <;> (simp only [validF]; decide)
    | UINT64 =>
      exfalso; revert hv; cases v <;> (simp only [validF]; decide)
    | NULL_VALUE_TYPE =>
      exfalso; revert hv; cases v <;> (simp only [validF]; decide)
    | UNKNOWN_DATA =>
      exfalso; revert hv; cases v <;> (simp only [validF]; decide)

/-- C1 counterexample: the timestamp 1 (one microsecond) is a value of the
TIMESTAMP kind, but the round trip does not yield it back: Serialize
converts microseconds to milliseconds (truncating division by 1000), so
the bytes encode 0 ms and deserializing yields the timestamp 0, not 1. -/
theorem c1_counterexample :
    serialize (.mk .TIMESTAMP []) (.timestampValue 1) [] =
        some [0, 0, 0, 8, 0, 0, 0, 0, 0, 0, 0, 0] ∧
      deserialize (.mk .TIMESTAMP []) [0, 0, 0, 8, 0, 0, 0, 0, 0, 0, 0, 0] =
        .ok (.timestampValue 0, []) ∧
      YQLValuePB.timestampValue 0 ≠ YQLValuePB.timestampValue 1 :=
  ⟨rfl, rfl, by simp⟩

/-- C1 (amended): For every supported kind and every valid value v of that
kind with type descriptor t - scalar payloads within their C++
representation range, byte payloads and collection encodings within the
int32 framing bound, decimal/inet/uuid payloads well-formed, and
timestamps on whole milliseconds - deserializing the bytes produced by
serializing v with t yields v back: bit-for-bit equal for scalars, and
structurally equal with element order preserved for maps, sets, and
lists, with no trailing bytes left over. -/
theorem c1_round_trip (t : YQLType) (v : YQLValuePB) (h : valid t v = true) :
    ∃ bytes, serialize t v [] = some bytes ∧
      deserialize t bytes = .ok (v, []) := by
  obtain ⟨out, hs, hd⟩ := serializeF_deserializeF_roundTrip (valSize v) t v
    (typeSize t) le_rfl h
  refine ⟨out, ?_, ?_⟩
  · simpa [serialize] using hs []
  · simpa [deserialize] using hd []

/-- Witness for the amended C1: a one-element int32 list round-trips. -/
theorem c1_round_trip_witness :
    ∃ bytes, serialize (.mk .LIST [.mk .INT32 []]) (.listValue [.int32Value 5]) [] =
        some bytes ∧
      deserialize (.mk .LIST [.mk .INT32 []]) bytes =
        .ok (.listValue [.int32Value 5], []) :=
  c1_round_trip (.mk .LIST [.mk .INT32 []]) (.listValue [.int32Value 5]) (by decide)

end YQLSpec
